import Mathlib

/-!
# gw-latency-tester: a verification development

Shallow embedding of `src/gw-latency-tester/gw-latency-tester.c`.

* `double` values are embedded as rationals (`ℚ`). The conversion of a
  timestamp (`atof`) and the subtraction of `diff_ts` round to the IEEE 754
  binary64 format as the code does (`round_double`). The statistics of lines
  209-213 are kept in exact arithmetic: `min` and `max` only compare and
  select, and the moving average is stated in exact arithmetic.
* `long`/`int` values are embedded as unbounded integers (`ℤ`).
* The operating system (descriptor table, sysfs GPIO files, the monotonic
  clock and the level seen on the receiver line) is an explicit `World`
  value that every system call transforms.
-/

namespace GwLatencyTester

/-! ## Statistics of `do_latency_test` (lines 170-171, 209-213) -/

/-- The three running statistics held in the locals `min`, `max`, `ewma`. -/
structure Stats where
  min : ℚ
  max : ℚ
  ewma : ℚ
deriving DecidableEq

/-- Initial values: `double min = 9999, max = 0; double ewma = 0;`. -/
def Stats.init : Stats := { min := 9999, max := 0, ewma := 0 }

/-- The statistics part of one loop iteration, in source order:
`ewma = (alpha * diff) + (1.0 - alpha) * ewma;`
`if (min > diff) min = diff;`
`if (max < diff) max = diff;`. -/
def stats_update (alpha : ℚ) (st : Stats) (diff : ℚ) : Stats :=
  let ewma := (alpha * diff) + (1 - alpha) * st.ewma
  let min := if st.min > diff then diff else st.min
  let max := if st.max < diff then diff else st.max
  { min := min, max := max, ewma := ewma }

/-- Feeding the samples one by one, from the given statistics. -/
def stats_from (alpha : ℚ) (st : Stats) (samples : List ℚ) : Stats :=
  samples.foldl (stats_update alpha) st

/-- Feeding the samples one by one, from the initial statistics. -/
def stats_run (alpha : ℚ) (samples : List ℚ) : Stats :=
  stats_from alpha Stats.init samples

/-- The value printed as `Max Jitter`: `max - min`. -/
def jitter (st : Stats) : ℚ := st.max - st.min

/-! ## Timestamps: `ts_to_double`, `diff_ts` (lines 50-61) -/

/-- The C `struct timespec`: two `long` fields. -/
structure timespec where
  tv_sec : ℤ
  tv_nsec : ℤ
deriving DecidableEq

/-- The character of the decimal digit `d`. -/
def digitChar (d : ℕ) : Char := Char.ofNat (48 + d)

/-- The decimal digits of `n`, least significant first, as the conversion
loop of `printf` produces them; no digit at all for 0. The first argument
bounds the number of digits. -/
def digitsRev : ℕ → ℕ → List ℕ
  | 0, _ => []
  | fuel + 1, n => if n = 0 then [] else (n % 10) :: digitsRev fuel (n / 10)

/-- The conversion `%.<prec>ld` of `printf`: a minus sign for a negative
value, then the decimal digits of the magnitude, padded with leading zeros to
at least `prec` digits. Plain `%ld` is the precision 1. -/
def fmt_ld (prec : ℕ) (v : ℤ) : List Char :=
  let ds := (digitsRev v.natAbs v.natAbs).reverse.map digitChar
  let body := List.replicate (prec - ds.length) '0' ++ ds
  if v < 0 then '-' :: body else body

/-- The text written by `snprintf(buf, sizeof(buf), "%ld.%.9ld", sec, nsec)`.
Two `long` values take at most 41 characters, so the 1024-byte buffer never
truncates. -/
def snprintf_ts (sec nsec : ℤ) : List Char :=
  fmt_ld 1 sec ++ '.' :: fmt_ld 9 nsec

/-- C `isspace` in the "C" locale. -/
def isspace (c : Char) : Bool :=
  c = ' ' || c = '\t' || c = '\n' || c = Char.ofNat 11 || c = Char.ofNat 12 || c = '\r'

/-- C `isdigit`. -/
def isdigit (c : Char) : Bool := decide (48 ≤ c.toNat) && decide (c.toNat ≤ 57)

/-- The value of a digit character. -/
def digitVal (c : Char) : ℕ := c.toNat - 48

/-- The number written by a run of decimal digits, most significant first. -/
def decValue (ds : List Char) : ℕ := ds.foldl (fun acc c => 10 * acc + digitVal c) 0

/-- The optional sign at the head of a number: whether it is negative, and the
text after it. -/
def takeSign : List Char → Bool × List Char
  | [] => (false, [])
  | c :: t => if c = '-' then (true, t) else if c = '+' then (false, t) else (false, c :: t)

/-- The optional exponent part `e[+-]digits` of a decimal floating constant; 0
when there is none (an `e` without digits is not an exponent). -/
def takeExponent : List Char → ℤ
  | [] => 0
  | c :: t =>
    if c = 'e' ∨ c = 'E' then
      let (neg, t) := takeSign t
      let ds := t.takeWhile isdigit
      if neg then -(decValue ds : ℤ) else (decValue ds : ℤ)
    else 0

/-- The real number a decimal text denotes for `strtod`: leading white space,
optional sign, digits, optional `.` and digits, optional exponent; parsing
stops at the first character that does not fit, and a text without any digit
gives 0. The hexadecimal, `inf` and `nan` forms are not modelled. -/
def decimal_value (buf : List Char) : ℚ :=
  let (neg, s) := takeSign (buf.dropWhile isspace)
  let ip := s.takeWhile isdigit
  let r := s.dropWhile isdigit
  let (fp, r) :=
    match r with
    | [] => (([] : List Char), ([] : List Char))
    | c :: t => if c = '.' then (t.takeWhile isdigit, t.dropWhile isdigit) else ([], c :: t)
  let m : ℚ := (decValue ip : ℚ) + (decValue fp : ℚ) / 10 ^ fp.length
  let v : ℚ := if ip = [] ∧ fp = [] then 0 else m * 10 ^ takeExponent r
  if neg then -v else v

/-- Rounding of a rational to the nearest integer, a tie going to the even
neighbour. -/
def round_half_even (q : ℚ) : ℤ :=
  if q - ⌊q⌋ < 1 / 2 then ⌊q⌋
  else if 1 / 2 < q - ⌊q⌋ then ⌊q⌋ + 1
  else if ⌊q⌋ % 2 = 0 then ⌊q⌋ else ⌊q⌋ + 1

/-- The exponent of the unit in the last place of the binary64 format at `x`:
52 below the binary exponent of `x`, which is taken as -1022 for the
subnormal numbers. -/
def ulp_exp (x : ℚ) : ℤ := max (Int.log 2 |x|) (-1022) - 52

/-- The value of a C `double` (IEEE 754 binary64) that results from the real
number `x`: the multiple of the unit in the last place nearest to `x`, ties to
even. Magnitudes of `2^1024` and more, which round to infinity, do not arise
from the two `long` fields of a timestamp and are not treated apart. -/
def round_double (x : ℚ) : ℚ :=
  (round_half_even (x / 2 ^ ulp_exp x) : ℚ) * 2 ^ ulp_exp x

/-- C `atof` (`strtod`): the `double` nearest to the number the text denotes. -/
def atof (buf : List Char) : ℚ := round_double (decimal_value buf)

/-- The function `ts_to_double`: print the timestamp as text, read the text back
as a `double`. -/
def ts_to_double (ts : timespec) : ℚ :=
  atof (snprintf_ts ts.tv_sec ts.tv_nsec)

/-- The function `diff_ts`: `ts_to_double(end) - ts_to_double(start)`, a
subtraction of two `double` values, rounded to `double`. -/
def diff_ts (start end_ : timespec) : ℚ :=
  round_double (ts_to_double end_ - ts_to_double start)

/-! ## The environment: descriptors, sysfs GPIO files, clock, receiver level -/

/-- The constant `NUM_DIO`: the number of lines. -/
def NUM_DIO : ℕ := 4

/-- Index of the power line: `pwr=0` of `enum {pwr=0, emit=1, led=2, recv=3}`. -/
def pwr : ℕ := 0

/-- Index of the emitter line: `emit=1`. -/
def emit : ℕ := 1

/-- Index of the status LED line: `led=2`. -/
def led : ℕ := 2

/-- Index of the receiver line: `recv=3`. -/
def recv : ℕ := 3

/-- The C `struct dio_grp`. -/
structure dio_grp where
  dio : ℤ
  value_fd : ℤ
  direction_fd : ℤ
deriving DecidableEq

/-- The two sysfs files of a pin: `gpio<N>/value` and `gpio<N>/direction`. -/
inductive Kind
  | value
  | direction
deriving DecidableEq

/-- Direction of a pin. -/
inductive Direction
  | input
  | output
deriving DecidableEq

/-- State of one GPIO pin: whether it is exported to sysfs, its direction
and the level it drives. -/
structure Pin where
  exported : Bool
  direction : Direction
  value : ℕ
deriving DecidableEq

/-- What one `read` of a single byte finds: a byte, end of file (returns 0)
or an error (returns -1). -/
inductive ReadResult
  | byte (c : Char)
  | eof
  | error
deriving DecidableEq

/-- The timestamp variable a clock reading is stored into. -/
inductive TsVar
  | s_ts
  | e_ts
deriving DecidableEq

/-- The system calls and library calls a run makes, in order. -/
inductive Event
  | lseek (fd : ℤ)
  | write (fd : ℤ) (data : String) (ok : Bool)
  | read (fd : ℤ) (r : ReadResult)
  | opened (pin : ℤ) (k : Kind) (ret : ℤ)
  | close (fd : ℤ)
  | system_export (pin : ℤ)
  | system_unexport (pin : ℤ)
  | clock_gettime (var : TsVar) (ts : timespec)
  | perror (msg : String)
  | sleep (seconds : ℕ)
  | usleep (usec : ℕ)
  | signal
deriving DecidableEq

/-- The program's global array together with the part of the operating system
it talks to. -/
structure World where
  /-- The global `g_dio_grp`; the indices `0 .. NUM_DIO-1` are used. -/
  g_dio_grp : ℕ → dio_grp
  /-- The open descriptors, each with the file it refers to. -/
  fds : List (ℤ × (ℤ × Kind))
  /-- The pins, by pin number. -/
  pins : ℤ → Pin
  /-- What the coming reads of a value file will find, in order. -/
  incoming : List ReadResult
  /-- How many clock readings were taken. -/
  nclock : ℕ
  /-- Whether `release_all_dio` is installed as the signal handler. -/
  handler : Bool
  /-- The calls made so far, oldest first. -/
  trace : List Event

/-- The choices of the environment: which calls fail, and what the clock shows. -/
structure Env where
  /-- `echo N > /sys/class/gpio/export` has no effect for this pin. -/
  export_fails : ℤ → Bool
  /-- `open` of this file fails. -/
  open_fails : ℤ → Kind → Bool
  /-- `write` of this text to this file fails. -/
  write_fails : ℤ → Kind → String → Bool
  /-- The successive readings of `CLOCK_MONOTONIC_RAW`. -/
  clock : ℕ → timespec

/-- How a call ends: it returns (`ok`), the program calls `exit(status)`
(`exit`; the world is the one at that call: what the program itself left
behind, before the kernel reclaims anything), or it is still polling when the
known input of the receiver runs out (`spin`). -/
inductive Outcome (α : Type)
  | ok (a : α) (w : World)
  | exit (status : ℤ) (w : World)
  | spin (w : World)

/-- Sequencing: the rest runs only after a normal return. -/
def Outcome.bind {α β : Type} (o : Outcome α) (f : α → World → Outcome β) : Outcome β :=
  match o with
  | .ok a w => f a w
  | .exit status w => .exit status w
  | .spin w => .spin w

/-- The world in which a call ended. -/
def Outcome.world {α : Type} : Outcome α → World
  | .ok _ w => w
  | .exit _ w => w
  | .spin w => w

/-- The exit status, when the process ended. -/
def Outcome.status {α : Type} : Outcome α → Option ℤ
  | .exit status _ => some status
  | _ => none

/-- Whether the call returned to its caller. -/
def Outcome.returned {α : Type} : Outcome α → Bool
  | .ok _ _ => true
  | _ => false

/-- Append a call to the history. -/
def World.log (w : World) (e : Event) : World := { w with trace := w.trace ++ [e] }

/-- The file an open descriptor refers to. -/
def lookupFd : List (ℤ × (ℤ × Kind)) → ℤ → Option (ℤ × Kind)
  | [], _ => none
  | (k, f) :: rest, fd => if k = fd then some f else lookupFd rest fd

/-- The lowest descriptor number from `k` on that is not open. -/
def lowestFreeFrom (fds : List (ℤ × (ℤ × Kind))) : ℕ → ℤ → ℤ
  | 0, k => k
  | fuel + 1, k => if (lookupFd fds k).isSome then lowestFreeFrom fds fuel (k + 1) else k

/-- The descriptor `open` returns: the lowest free one above the three
standard streams. -/
def lowestFree (fds : List (ℤ × (ℤ × Kind))) : ℤ := lowestFreeFrom fds fds.length 3

/-- The call `open(path, O_RDWR | O_SYNC)` of a sysfs file of a pin: -1 on failure. -/
def sys_open (env : Env) (pin : ℤ) (k : Kind) (w : World) : ℤ × World :=
  if env.open_fails pin k then (-1, w.log (.opened pin k (-1)))
  else
    let fd := lowestFree w.fds
    (fd, { w with fds := (fd, (pin, k)) :: w.fds, trace := w.trace ++ [.opened pin k fd] })

/-- The call `close(fd)`; the return value is never looked at. -/
def sys_close (fd : ℤ) (w : World) : World :=
  { w with fds := w.fds.filter (fun e => !decide (e.1 = fd)), trace := w.trace ++ [.close fd] }

/-- The call `lseek(fd, 0, SEEK_SET)`; the return value is never looked at. -/
def sys_lseek (fd : ℤ) (w : World) : World := w.log (.lseek fd)

/-- The effect on a pin of a text written to one of its files; `none` for a
text the file does not accept. -/
def Pin.store (p : Pin) (k : Kind) (data : String) : Option Pin :=
  match k with
  | .direction =>
    if data = "out" then some { p with direction := .output }
    else if data = "in" then some { p with direction := .input }
    else none
  | .value =>
    if data = "0" then some { p with value := 0 }
    else if data = "1" then some { p with value := 1 }
    else none

/-- The call `write(fd, data, strlen(data))`: whether it succeeded, and the world
after it. It fails on a descriptor that is not open, when the environment
makes it fail, and on a text the file does not accept. -/
def sys_write (env : Env) (fd : ℤ) (data : String) (w : World) : Bool × World :=
  match lookupFd w.fds fd with
  | none => (false, w.log (.write fd data false))
  | some (pin, k) =>
    if env.write_fails pin k data then (false, w.log (.write fd data false))
    else
      match (w.pins pin).store k data with
      | none => (false, w.log (.write fd data false))
      | some p =>
        (true, { w with pins := Function.update w.pins pin p,
                        trace := w.trace ++ [.write fd data true] })

/-- The call `read(fd, &ret, 1)`: what it finds, `none` when nothing more is known of
the receiver. On a descriptor that is not open it is an error. -/
def sys_read (fd : ℤ) (w : World) : Option (ReadResult × World) :=
  match w.incoming with
  | [] => none
  | r :: rest =>
    let r' := if (lookupFd w.fds fd).isSome then r else ReadResult.error
    some (r', { w with incoming := rest, trace := w.trace ++ [.read fd r'] })

/-- The call `system("echo N > /sys/class/gpio/export")`; the return value is never looked at. -/
def system_export (env : Env) (pin : ℤ) (w : World) : World :=
  if env.export_fails pin then w.log (.system_export pin)
  else
    { w with pins := Function.update w.pins pin { w.pins pin with exported := true },
             trace := w.trace ++ [.system_export pin] }

/-- The call `system("echo N > /sys/class/gpio/unexport")`; the return value is never looked at. -/
def system_unexport (pin : ℤ) (w : World) : World :=
  { w with pins := Function.update w.pins pin { w.pins pin with exported := false },
           trace := w.trace ++ [.system_unexport pin] }

/-- The call `clock_gettime(CLOCK_MONOTONIC_RAW, &var)`: the next reading of the clock. -/
def sys_clock_gettime (env : Env) (var : TsVar) (w : World) : timespec × World :=
  (env.clock w.nclock,
    { w with nclock := w.nclock + 1, trace := w.trace ++ [.clock_gettime var (env.clock w.nclock)] })

/-- The call `perror(msg)`. -/
def perror (msg : String) (w : World) : World := w.log (.perror msg)

/-! ## The program (lines 63-228) -/

/-- The function `change_dir_dio`: seek to the start of the direction file, write `dir`,
end the process with status 1 when the write fails. -/
def change_dir_dio (env : Env) (g : dio_grp) (dir : String) (w : World) : Outcome Unit :=
  let w := sys_lseek g.direction_fd w
  let r := sys_write env g.direction_fd dir w
  if r.1 then .ok () r.2 else .exit 1 (perror "write direction" r.2)

/-- The function `change_val_dio`: seek to the start of the value file, write `val`,
end the process with status 1 when the write fails. -/
def change_val_dio (env : Env) (g : dio_grp) (val : String) (w : World) : Outcome Unit :=
  let w := sys_lseek g.value_fd w
  let r := sys_write env g.value_fd val w
  if r.1 then .ok () r.2 else .exit 1 (perror "write value" r.2)

/-- The function `get_val_dio`: `ret` starts as `'0'` and is overwritten only by a read
that delivers a byte; a failed read is reported and `ret` returned as it is.
`none` when nothing more is known of the receiver. -/
def get_val_dio (g : dio_grp) (w : World) : Option (Char × World) :=
  let ret := '0'
  let w := sys_lseek g.value_fd w
  match sys_read g.value_fd w with
  | none => none
  | some (.byte c, w) => some (c, w)
  | some (.eof, w) => some (ret, w)
  | some (.error, w) => some (ret, perror "read value" w)

/-- The assignment `g_dio_grp[dio].value_fd = fd`. -/
def World.set_value_fd (w : World) (dio : ℕ) (fd : ℤ) : World :=
  let g := w.g_dio_grp dio
  { w with
    g_dio_grp := Function.update w.g_dio_grp dio
                   { dio := g.dio, value_fd := fd, direction_fd := g.direction_fd } }

/-- The assignment `g_dio_grp[dio].direction_fd = fd`. -/
def World.set_direction_fd (w : World) (dio : ℕ) (fd : ℤ) : World :=
  let g := w.g_dio_grp dio
  { w with
    g_dio_grp := Function.update w.g_dio_grp dio
                   { dio := g.dio, value_fd := g.value_fd, direction_fd := fd } }

/-- The function `open_dio`: the paths are built from `g.dio`, the descriptors are stored
in `g_dio_grp[dio]`. -/
def open_dio (env : Env) (dio : ℕ) (g : dio_grp) (w : World) : Outcome Unit :=
  let r := sys_open env g.dio .value w
  let w := r.2.set_value_fd dio r.1
  if r.1 < 0 then .exit 1 (perror "open value" w)
  else
    let r := sys_open env g.dio .direction w
    let w := r.2.set_direction_fd dio r.1
    if r.1 < 0 then .exit 1 (perror "open direction" w)
    else .ok () w

/-- The loop `for (; i < NUM_DIO; i++) body`, with `count` iterations left. -/
def for_dio (body : ℕ → World → Outcome Unit) : ℕ → ℕ → World → Outcome Unit
  | 0, _, w => .ok () w
  | count + 1, i, w => (body i w).bind (fun _ w => for_dio body count (i + 1) w)

/-- The body of the loop of `release_all_dio`. -/
def release_one (env : Env) (i : ℕ) (w : World) : Outcome Unit :=
  (change_dir_dio env (w.g_dio_grp i) "out" w).bind fun _ w =>
  (change_val_dio env (w.g_dio_grp i) "0" w).bind fun _ w =>
  let w := sys_close (w.g_dio_grp i).value_fd w
  let w := sys_close (w.g_dio_grp i).direction_fd w
  .ok () (system_unexport (w.g_dio_grp i).dio w)

/-- The function `release_all_dio`: the loop over the four lines, then `exit(sig)` when
`sig` is not 0. -/
def release_all_dio (env : Env) (sig : ℤ) (w : World) : Outcome Unit :=
  (for_dio (release_one env) NUM_DIO 0 w).bind fun _ w =>
  if sig ≠ 0 then .exit sig w else .ok () w

/-- The body of the second loop of `setup_dio`. -/
def setup_one (env : Env) (i : ℕ) (w : World) : Outcome Unit :=
  (open_dio env i (w.g_dio_grp i) w).bind fun _ w =>
  (change_dir_dio env (w.g_dio_grp i) "out" w).bind fun _ w =>
  change_val_dio env (w.g_dio_grp i) "0" w

/-- The function `setup_dio`: export the four pins, open and drive low the four lines,
make the receiver an input, install the signal handler. -/
def setup_dio (env : Env) (w : World) : Outcome Unit :=
  (for_dio (fun i w => .ok () (system_export env (w.g_dio_grp i).dio w)) NUM_DIO 0 w).bind fun _ w =>
  (for_dio (setup_one env) NUM_DIO 0 w).bind fun _ w =>
  (change_dir_dio env (w.g_dio_grp recv) "in" w).bind fun _ w =>
  .ok () { w with handler := true, trace := w.trace ++ [.signal, .signal, .signal] }

/-- A spin loop `while (cond(get_val_dio(g_dio_grp[recv]))) ;` with at most
`fuel` polls; every poll consumes one item of the known input. -/
def spin_while (cond : Char → Bool) : ℕ → World → Outcome Unit
  | 0, w => .spin w
  | fuel + 1, w =>
    match get_val_dio (w.g_dio_grp recv) w with
    | none => .spin w
    | some (c, w) => if cond c then spin_while cond fuel w else .ok () w

/-- One iteration of the loop `while (count--)` of `do_latency_test`. -/
def probe_cycle (env : Env) (udelay : ℕ) (alpha : ℚ) (st : Stats) (w : World) : Outcome Stats :=
  (spin_while (fun c => decide (c = '0')) w.incoming.length w).bind fun _ w =>
  let s := sys_clock_gettime env .s_ts w
  (change_val_dio env (s.2.g_dio_grp emit) "1" s.2).bind fun _ w =>
  (spin_while (fun c => decide (c ≠ '0')) w.incoming.length w).bind fun _ w =>
  let e := sys_clock_gettime env .e_ts w
  (change_val_dio env (e.2.g_dio_grp emit) "0" e.2).bind fun _ w =>
  let diff := diff_ts s.1 e.1
  .ok (stats_update alpha st diff) (w.log (.usleep udelay))

/-- The loop `while (count--)`. -/
def probe_loop (env : Env) (udelay : ℕ) (alpha : ℚ) : ℕ → Stats → World → Outcome Stats
  | 0, st, w => .ok st w
  | count + 1, st, w =>
    (probe_cycle env udelay alpha st w).bind fun st w => probe_loop env udelay alpha count st w

/-- The function `do_latency_test`; the result is the statistics printed in the
summary. `clock_getres` and the printing calls change nothing of the world
and are left out. -/
def do_latency_test (env : Env) (loop_count udelay : ℕ) (alpha : ℚ) (w : World) : Outcome Stats :=
  (setup_dio env w).bind fun _ w =>
  (change_val_dio env (w.g_dio_grp led) "1" w).bind fun _ w =>
  (change_val_dio env (w.g_dio_grp pwr) "0" w).bind fun _ w =>
  (probe_loop env udelay alpha loop_count Stats.init (w.log (.sleep 1))).bind fun st w =>
  (change_val_dio env (w.g_dio_grp led) "0" w).bind fun _ w =>
  (release_all_dio env 0 w).bind fun _ w => .ok st w

/-- The world at the start of `main` after the command line was parsed: the
four pin numbers stored, the descriptor fields zero, nothing open, no pin
exported. -/
def World.start (p0 p1 p2 p3 : ℤ) (incoming : List ReadResult) : World :=
  { g_dio_grp := fun i =>
      { dio := if i = 0 then p0 else if i = 1 then p1 else if i = 2 then p2
               else if i = 3 then p3 else 0,
        value_fd := 0, direction_fd := 0 },
    fds := [],
    pins := fun _ => { exported := false, direction := .input, value := 0 },
    incoming := incoming,
    nclock := 0,
    handler := false,
    trace := [] }

/-- An environment in which no call fails and the clock advances by
1,000,000 ns per reading, starting at 0. -/
def Env.calm : Env :=
  { export_fails := fun _ => false,
    open_fails := fun _ _ => false,
    write_fails := fun _ _ _ => false,
    clock := fun n => { tv_sec := (n / 1000 : ℕ), tv_nsec := 1000000 * (n % 1000 : ℕ) } }

/-- The calm environment, except that writing `data` to the file `k` of `pin` fails. -/
def Env.failing_write (pin : ℤ) (k : Kind) (data : String) : Env :=
  { Env.calm with
    write_fails := fun p k' d => decide (p = pin) && decide (k' = k) && decide (d = data) }

/-- The calm environment, except that opening the file `k` of `pin` fails. -/
def Env.failing_open (pin : ℤ) (k : Kind) : Env :=
  { Env.calm with open_fails := fun p k' => decide (p = pin) && decide (k' = k) }

/-- A line group after a successful `setup_dio` on the pins 16, 19, 17, 20
(the GW53xx assignment of the usage text). -/
def World.ready (incoming : List ReadResult) : World :=
  (setup_dio Env.calm (World.start 16 19 17 20 incoming)).world

/-! ## States of a line, for the statements about setup and teardown -/

/-- Both descriptors of line `i` are open, on the two files of its pin. -/
def World.line_open (w : World) (i : ℕ) : Prop :=
  lookupFd w.fds (w.g_dio_grp i).value_fd = some ((w.g_dio_grp i).dio, Kind.value) ∧
  lookupFd w.fds (w.g_dio_grp i).direction_fd = some ((w.g_dio_grp i).dio, Kind.direction)

instance (w : World) (i : ℕ) : Decidable (w.line_open i) := by
  unfold World.line_open; infer_instance

/-- Line `i` is torn down: its pin is an output driving 0 and is unexported,
and both its descriptors are closed. -/
def World.line_released (w : World) (i : ℕ) : Prop :=
  w.pins (w.g_dio_grp i).dio = { exported := false, direction := .output, value := 0 } ∧
  lookupFd w.fds (w.g_dio_grp i).value_fd = none ∧
  lookupFd w.fds (w.g_dio_grp i).direction_fd = none

instance (w : World) (i : ℕ) : Decidable (w.line_released i) := by
  unfold World.line_released; infer_instance

/-- The four lines are four different pins. -/
def World.distinct_pins (w : World) : Prop :=
  ∀ i < NUM_DIO, ∀ j < NUM_DIO, i ≠ j → (w.g_dio_grp i).dio ≠ (w.g_dio_grp j).dio

instance (w : World) : Decidable w.distinct_pins := by
  unfold World.distinct_pins; infer_instance

/-- The line group is set up: four different pins, every line open. -/
def World.set_up (w : World) : Prop :=
  w.distinct_pins ∧ ∀ i < NUM_DIO, w.line_open i

instance (w : World) : Decidable w.set_up := by
  unfold World.set_up; infer_instance

/-- The teardown writes of line `i` are not made to fail by the environment. -/
def Env.release_writes_ok (env : Env) (w : World) (i : ℕ) : Prop :=
  env.write_fails (w.g_dio_grp i).dio Kind.direction "out" = false ∧
  env.write_fails (w.g_dio_grp i).dio Kind.value "0" = false

instance (env : Env) (w : World) (i : ℕ) : Decidable (env.release_writes_ok w i) := by
  unfold Env.release_writes_ok; infer_instance

/-- The four calls of `setup_dio` on line `i` are not made to fail. -/
def Env.setup_ok (env : Env) (w : World) (i : ℕ) : Prop :=
  env.open_fails (w.g_dio_grp i).dio Kind.value = false ∧
  env.open_fails (w.g_dio_grp i).dio Kind.direction = false ∧
  env.write_fails (w.g_dio_grp i).dio Kind.direction "out" = false ∧
  env.write_fails (w.g_dio_grp i).dio Kind.value "0" = false

instance (env : Env) (w : World) (i : ℕ) : Decidable (env.setup_ok w i) := by
  unfold Env.setup_ok; infer_instance

/-- From `w` to `w'` nothing was closed and only the descriptor fields of
line `i` were assigned. -/
def World.keeps (w w' : World) (i : ℕ) : Prop :=
  (∀ j, (w'.g_dio_grp j).dio = (w.g_dio_grp j).dio) ∧
  (∀ j, j ≠ i → w'.g_dio_grp j = w.g_dio_grp j) ∧
  (∀ fd t, lookupFd w.fds fd = some t → lookupFd w'.fds fd = some t) ∧
  w'.handler = w.handler

/-- Whether a call gives something back: a `close`, or the unexport command. -/
def Event.releases : Event → Bool
  | .close _ => true
  | .system_unexport _ => true
  | _ => false

/-- From `w` to `w'` the history only grew, and by no `close` and no unexport. -/
def World.no_release (w w' : World) : Prop :=
  ∃ added, w'.trace = w.trace ++ added ∧ ∀ e ∈ added, e.releases = false

/-- Where `setup_dio` meets its first failing call: on line `n` in the loop
that opens and drives low (an open, the write of `"out"` or the write of
`"0"`), the lines before `n` being fine; or, all four lines being fine, at
the write of `"in"` on the receiver line. -/
def Env.setup_fails_at (env : Env) (w : World) (n : ℕ) : Prop :=
  ((∀ j < n, env.setup_ok w j) ∧ ¬ env.setup_ok w n) ∨
  (n = recv ∧ (∀ j < NUM_DIO, env.setup_ok w j) ∧
    env.write_fails (w.g_dio_grp recv).dio Kind.direction "in" = true)

instance (env : Env) (w : World) (n : ℕ) : Decidable (env.setup_fails_at w n) := by
  unfold Env.setup_fails_at; infer_instance

/-! ## What a probe cycle does, for the statements about the loop -/

/-- The character `get_val_dio` returns for what its `read` found: the byte
read, and the initial `'0'` of `ret` at end of file and on an error. -/
def ReadResult.level : ReadResult → Char
  | .byte c => c
  | .eof => '0'
  | .error => '0'

/-- The calls of one `get_val_dio` on descriptor `fd` whose `read` found `r`. -/
def poll_events (fd : ℤ) (r : ReadResult) : List Event :=
  match r with
  | .error => [.lseek fd, .read fd .error, .perror "read value"]
  | r => [.lseek fd, .read fd r]

/-- The calls of successive polls. -/
def polls (fd : ℤ) : List ReadResult → List Event
  | [] => []
  | r :: rs => poll_events fd r ++ polls fd rs

/-- What the receiver shows during one probe cycle: the reads `pre` during the
first spin-wait that keep it spinning, the read `x` that ends it, the reads
`mid` during the second spin-wait that keep it spinning, the read `y` that
ends it. -/
structure CycleReads where
  pre : List ReadResult
  x : ReadResult
  mid : List ReadResult
  y : ReadResult

/-- The reads of a cycle, in order. -/
def CycleReads.reads (c : CycleReads) : List ReadResult :=
  c.pre ++ c.x :: (c.mid ++ [c.y])

/-- The reads fit the two spin-waits as the code runs them: the first wait
spins while `get_val_dio` returns `'0'` and ends on anything else; the second
wait spins on anything but `'0'` and ends when `get_val_dio` returns `'0'`. -/
def CycleReads.fits (c : CycleReads) : Prop :=
  (∀ r ∈ c.pre, r.level = '0') ∧ c.x.level ≠ '0' ∧ (∀ r ∈ c.mid, r.level ≠ '0') ∧ c.y.level = '0'

instance (c : CycleReads) : Decidable c.fits := by
  unfold CycleReads.fits; infer_instance

/-- The receiver behaves as a GPIO value file whose level is really read when
a wait ends: the first wait ends on a read of `'1'`, the second wait sees
reads of `'1'` and ends on a read of `'0'`. -/
def CycleReads.clean (c : CycleReads) : Prop :=
  (∀ r ∈ c.pre, r.level = '0') ∧ c.x = .byte '1' ∧ (∀ r ∈ c.mid, r = .byte '1') ∧
    c.y = .byte '0'

instance (c : CycleReads) : Decidable c.clean := by
  unfold CycleReads.clean; infer_instance

/-- The calls of one probe cycle, in order: polls of the
receiver `rfd` up to the read that ends the first wait, the start timestamp,
the write of `"1"` to the emitter `efd`, polls up to the read that ends the
second wait, the end timestamp, the write of `"0"` to the emitter, the delay. -/
def cycle_events (rfd efd : ℤ) (s e : timespec) (udelay : ℕ) (c : CycleReads) : List Event :=
  polls rfd (c.pre ++ [c.x]) ++
  [.clock_gettime .s_ts s, .lseek efd, .write efd "1" true] ++
  polls rfd (c.mid ++ [c.y]) ++
  [.clock_gettime .e_ts e, .lseek efd, .write efd "0" true, .usleep udelay]

/-- The calls of successive probe cycles, the clock having been read `n` times before. -/
def loop_events (env : Env) (rfd efd : ℤ) (udelay : ℕ) : ℕ → List CycleReads → List Event
  | _, [] => []
  | n, c :: cs =>
    cycle_events rfd efd (env.clock n) (env.clock (n + 1)) udelay c ++
      loop_events env rfd efd udelay (n + 2) cs

/-- The samples of successive probe cycles, the clock having been read `n` times before. -/
def loop_samples (env : Env) : ℕ → ℕ → List ℚ
  | _, 0 => []
  | n, k + 1 => diff_ts (env.clock n) (env.clock (n + 1)) :: loop_samples env (n + 2) k

/-- The reads of successive cycles, in order. -/
def all_reads : List CycleReads → List ReadResult
  | [] => []
  | c :: cs => c.reads ++ all_reads cs

/-- Where a run is with respect to the timestamps of a cycle: `timing` from
the capture of the start timestamp to the capture of the end timestamp,
`closing` from the capture of the end timestamp to the next successful write
of `"0"` to the emitter, `idle` otherwise. -/
inductive Phase
  | idle
  | timing
  | closing
deriving DecidableEq

/-- The level the emitter is driven to, and the phase. -/
structure EmitState where
  level : ℕ
  phase : Phase
deriving DecidableEq

/-- The effect of one call on the emitter level and the phase; `efd` is the
value descriptor of the emitter. -/
def emit_step (efd : ℤ) (s : EmitState) : Event → EmitState
  | .clock_gettime .s_ts _ => { s with phase := .timing }
  | .clock_gettime .e_ts _ => { s with phase := .closing }
  | .write fd data true =>
    if fd = efd then
      if data = "1" then { s with level := 1 }
      else if data = "0" then
        { level := 0, phase := if s.phase = .closing then .idle else s.phase }
      else s
    else s
  | _ => s

/-- The states after each call of a history. -/
def emit_states (efd : ℤ) : EmitState → List Event → List EmitState
  | _, [] => []
  | s, e :: es => emit_step efd s e :: emit_states efd (emit_step efd s e) es

/-- The state after a whole history. -/
def emit_final (efd : ℤ) (s : EmitState) (es : List Event) : EmitState :=
  es.foldl (emit_step efd) s

/-- From `w` to `w'` nothing was read from the receiver and the clock was not read. -/
def World.same_input (w w' : World) : Prop :=
  w'.incoming = w.incoming ∧ w'.nclock = w.nclock

/-! ## Theorems -/

/-! ### Statistics -/

theorem stats_from_nil (alpha : ℚ) (st : Stats) : stats_from alpha st [] = st := rfl

theorem stats_from_cons (alpha : ℚ) (st : Stats) (d : ℚ) (ds : List ℚ) :
    stats_from alpha st (d :: ds) = stats_from alpha (stats_update alpha st d) ds := rfl

theorem stats_from_append (alpha : ℚ) (st : Stats) (xs ys : List ℚ) :
    stats_from alpha st (xs ++ ys) = stats_from alpha (stats_from alpha st xs) ys := by
  simp [stats_from, List.foldl_append]

theorem stats_update_min_le (alpha : ℚ) (st : Stats) (d : ℚ) :
    (stats_update alpha st d).min ≤ st.min ∧ (stats_update alpha st d).min ≤ d := by
  simp only [stats_update]
  split_ifs with h
  · exact ⟨le_of_lt h, le_refl _⟩
  · exact ⟨le_refl _, not_lt.mp h⟩

theorem stats_update_le_max (alpha : ℚ) (st : Stats) (d : ℚ) :
    st.max ≤ (stats_update alpha st d).max ∧ d ≤ (stats_update alpha st d).max := by
  simp only [stats_update]
  split_ifs with h
  · exact ⟨le_of_lt h, le_refl _⟩
  · exact ⟨le_refl _, not_lt.mp h⟩

theorem stats_update_min_mem (alpha : ℚ) (st : Stats) (d : ℚ) :
    (stats_update alpha st d).min = st.min ∨ (stats_update alpha st d).min = d := by
  simp only [stats_update]
  split_ifs <;> simp

theorem stats_update_max_mem (alpha : ℚ) (st : Stats) (d : ℚ) :
    (stats_update alpha st d).max = st.max ∨ (stats_update alpha st d).max = d := by
  simp only [stats_update]
  split_ifs <;> simp

/-- The running minimum never rises and is below every sample fed. -/
theorem stats_from_min_le (alpha : ℚ) (samples : List ℚ) :
    ∀ st : Stats, (stats_from alpha st samples).min ≤ st.min ∧
      ∀ s ∈ samples, (stats_from alpha st samples).min ≤ s := by
  induction samples with
  | nil => intro st; simp [stats_from_nil]
  | cons d ds ih =>
    intro st
    rw [stats_from_cons]
    obtain ⟨h1, h2⟩ := ih (stats_update alpha st d)
    obtain ⟨u1, u2⟩ := stats_update_min_le alpha st d
    refine ⟨le_trans h1 u1, ?_⟩
    intro s hs
    rcases List.mem_cons.mp hs with rfl | hs
    · exact le_trans h1 u2
    · exact h2 s hs

/-- The running maximum never falls and is above every sample fed. -/
theorem stats_from_le_max (alpha : ℚ) (samples : List ℚ) :
    ∀ st : Stats, st.max ≤ (stats_from alpha st samples).max ∧
      ∀ s ∈ samples, s ≤ (stats_from alpha st samples).max := by
  induction samples with
  | nil => intro st; simp [stats_from_nil]
  | cons d ds ih =>
    intro st
    rw [stats_from_cons]
    obtain ⟨h1, h2⟩ := ih (stats_update alpha st d)
    obtain ⟨u1, u2⟩ := stats_update_le_max alpha st d
    refine ⟨le_trans u1 h1, ?_⟩
    intro s hs
    rcases List.mem_cons.mp hs with rfl | hs
    · exact le_trans u2 h1
    · exact h2 s hs

/-- The running minimum is the starting value or one of the samples. -/
theorem stats_from_min_mem (alpha : ℚ) (samples : List ℚ) :
    ∀ st : Stats, (stats_from alpha st samples).min = st.min ∨
      (stats_from alpha st samples).min ∈ samples := by
  induction samples with
  | nil => intro st; simp [stats_from_nil]
  | cons d ds ih =>
    intro st
    rw [stats_from_cons]
    rcases ih (stats_update alpha st d) with h | h
    · rcases stats_update_min_mem alpha st d with u | u
      · exact Or.inl (h.trans u)
      · exact Or.inr (List.mem_cons.mpr (Or.inl (h.trans u)))
    · exact Or.inr (List.mem_cons_of_mem _ h)

/-- The running maximum is the starting value or one of the samples. -/
theorem stats_from_max_mem (alpha : ℚ) (samples : List ℚ) :
    ∀ st : Stats, (stats_from alpha st samples).max = st.max ∨
      (stats_from alpha st samples).max ∈ samples := by
  induction samples with
  | nil => intro st; simp [stats_from_nil]
  | cons d ds ih =>
    intro st
    rw [stats_from_cons]
    rcases ih (stats_update alpha st d) with h | h
    · rcases stats_update_max_mem alpha st d with u | u
      · exact Or.inl (h.trans u)
      · exact Or.inr (List.mem_cons.mpr (Or.inl (h.trans u)))
    · exact Or.inr (List.mem_cons_of_mem _ h)

/-- C1: for every alpha and every sequence of samples fed so far (any prefix of
a longer run is itself such a sequence), every sample `s` already fed
satisfies `min ≤ s ≤ max`, and the jitter `max - min` is non-negative. -/
theorem C1_min_le_sample_le_max (alpha : ℚ) (fed : List ℚ) (s : ℚ) (hs : s ∈ fed) :
    (stats_run alpha fed).min ≤ s ∧ s ≤ (stats_run alpha fed).max ∧
      0 ≤ jitter (stats_run alpha fed) := by
  have h1 := (stats_from_min_le alpha fed Stats.init).2 s hs
  have h2 := (stats_from_le_max alpha fed Stats.init).2 s hs
  refine ⟨h1, h2, ?_⟩
  unfold jitter
  have : (stats_run alpha fed).min ≤ (stats_run alpha fed).max := le_trans h1 h2
  linarith

/-- C1 at the samples 0.002, 0.004, 0.003 and the sample 0.003. -/
theorem C1_min_le_sample_le_max_witness :
    (3 / 1000 : ℚ) ∈ [(2 / 1000 : ℚ), 4 / 1000, 3 / 1000] ∧
      ((stats_run (1 / 2) [2 / 1000, 4 / 1000, 3 / 1000]).min ≤ 3 / 1000 ∧
        3 / 1000 ≤ (stats_run (1 / 2) [2 / 1000, 4 / 1000, 3 / 1000]).max ∧
        0 ≤ jitter (stats_run (1 / 2) [2 / 1000, 4 / 1000, 3 / 1000])) :=
  ⟨by simp, C1_min_le_sample_le_max (1 / 2) [2 / 1000, 4 / 1000, 3 / 1000] (3 / 1000) (by simp)⟩

/-- C2 (as stated, refuted): the single non-negative sample 10000 leaves the
reported minimum at the initial 9999, which is not a sample of the run. -/
theorem C2_min_sentinel_survives :
    (stats_run (1 / 10) [10000]).min = 9999 ∧
      (stats_run (1 / 10) [10000]).min ∉ [(10000 : ℚ)] ∧ (0 : ℚ) ≤ 10000 := by
  norm_num [stats_run, stats_from, stats_update, Stats.init]

/-- C2 (amended): for every non-empty sequence of non-negative samples one of
which is at most 9999, the reported min is the smallest sample and the
reported max is the largest sample. -/
theorem C2_min_max_extremes (alpha : ℚ) (samples : List ℚ)
    (hnonneg : ∀ s ∈ samples, 0 ≤ s) (hsmall : ∃ s ∈ samples, s ≤ 9999) :
    ((stats_run alpha samples).min ∈ samples ∧
        ∀ s ∈ samples, (stats_run alpha samples).min ≤ s) ∧
      ((stats_run alpha samples).max ∈ samples ∧
        ∀ s ∈ samples, s ≤ (stats_run alpha samples).max) := by
  obtain ⟨s0, hs0, hs0le⟩ := hsmall
  have hmin := stats_from_min_le alpha samples Stats.init
  have hmax := stats_from_le_max alpha samples Stats.init
  refine ⟨⟨?_, hmin.2⟩, ⟨?_, hmax.2⟩⟩
  · rcases stats_from_min_mem alpha samples Stats.init with h | h
    · have h1 : (stats_run alpha samples).min ≤ s0 := hmin.2 s0 hs0
      have h2 : (stats_run alpha samples).min = 9999 := h
      have : (stats_run alpha samples).min = s0 := le_antisymm h1 (by rw [h2]; exact hs0le)
      rw [this]; exact hs0
    · exact h
  · rcases stats_from_max_mem alpha samples Stats.init with h | h
    · have h1 : s0 ≤ (stats_run alpha samples).max := hmax.2 s0 hs0
      have h2 : (stats_run alpha samples).max = 0 := h
      have : (stats_run alpha samples).max = s0 :=
        le_antisymm (by rw [h2]; exact hnonneg s0 hs0) h1
      rw [this]; exact hs0
    · exact h

/-- C2 (amended) at the scenario of the specification: samples 0.002, 0.004,
0.003 give min 0.002, max 0.004 and jitter 0.002. -/
theorem C2_min_max_extremes_witness :
    ((∀ s ∈ [(2 / 1000 : ℚ), 4 / 1000, 3 / 1000], 0 ≤ s) ∧
      (∃ s ∈ [(2 / 1000 : ℚ), 4 / 1000, 3 / 1000], s ≤ 9999)) ∧
    (((stats_run (1 / 2) [2 / 1000, 4 / 1000, 3 / 1000]).min ∈ [(2 / 1000 : ℚ), 4 / 1000, 3 / 1000] ∧
        ∀ s ∈ [(2 / 1000 : ℚ), 4 / 1000, 3 / 1000],
          (stats_run (1 / 2) [2 / 1000, 4 / 1000, 3 / 1000]).min ≤ s) ∧
      ((stats_run (1 / 2) [2 / 1000, 4 / 1000, 3 / 1000]).max ∈ [(2 / 1000 : ℚ), 4 / 1000, 3 / 1000] ∧
        ∀ s ∈ [(2 / 1000 : ℚ), 4 / 1000, 3 / 1000],
          s ≤ (stats_run (1 / 2) [2 / 1000, 4 / 1000, 3 / 1000]).max)) ∧
    (stats_run (1 / 2) [2 / 1000, 4 / 1000, 3 / 1000]).min = 2 / 1000 ∧
    (stats_run (1 / 2) [2 / 1000, 4 / 1000, 3 / 1000]).max = 4 / 1000 ∧
    jitter (stats_run (1 / 2) [2 / 1000, 4 / 1000, 3 / 1000]) = 2 / 1000 :=
  ⟨⟨by norm_num, ⟨2 / 1000, by simp, by norm_num⟩⟩,
    C2_min_max_extremes (1 / 2) [2 / 1000, 4 / 1000, 3 / 1000] (by norm_num)
      ⟨2 / 1000, by simp, by norm_num⟩,
    by norm_num [stats_run, stats_from, stats_update, Stats.init],
    by norm_num [stats_run, stats_from, stats_update, Stats.init],
    by norm_num [jitter, stats_run, stats_from, stats_update, Stats.init]⟩

/-- C3: after `k` updates with the identical sample `s`, starting from the
seed `ewma = 0`, the moving average is `s * (1 - (1 - alpha)^k)`. -/
theorem C3_ewma_constant_stream (alpha s : ℚ) (k : ℕ) :
    (stats_run alpha (List.replicate k s)).ewma = s * (1 - (1 - alpha) ^ k) := by
  have key : ∀ (k : ℕ) (st : Stats),
      (stats_from alpha st (List.replicate k s)).ewma
        = s * (1 - (1 - alpha) ^ k) + (1 - alpha) ^ k * st.ewma := by
    intro k
    induction k with
    | zero => intro st; simp [stats_from_nil]
    | succ n ih =>
      intro st
      rw [List.replicate_succ, stats_from_cons, ih]
      simp only [stats_update]
      ring
  have := key k Stats.init
  simpa [stats_run, Stats.init] using this

/-- C4: with `alpha = 1` the moving average after an update is exactly the
sample just fed, whatever the statistics were before. -/
theorem C4_ewma_alpha_one (st : Stats) (before : List ℚ) (s : ℚ) :
    (stats_update 1 st s).ewma = s ∧
      (stats_from 1 st (before ++ [s])).ewma = s ∧
      (stats_run 1 (before ++ [s])).ewma = s := by
  have h : ∀ st : Stats, (stats_update 1 st s).ewma = s := by
    intro st; simp [stats_update]
  refine ⟨h st, ?_, ?_⟩
  · rw [stats_from_append, stats_from_cons, stats_from_nil]; exact h _
  · rw [stats_run, stats_from_append, stats_from_cons, stats_from_nil]; exact h _

/-! ### Timestamps -/

/-- The text `snprintf` produces, on three timestamps. -/
theorem snprintf_ts_examples :
    snprintf_ts 5 1000000 = "5.001000000".toList ∧
    snprintf_ts 0 0 = "0.000000000".toList ∧
    snprintf_ts (-3) 7 = "-3.000000007".toList := by
  decide
theorem takeWhile_append_stop {α : Type} (p : α → Bool) (l : List α) (y : α) (r : List α)
    (hl : ∀ x ∈ l, p x = true) (hy : p y = false) :
    (l ++ y :: r).takeWhile p = l ∧ (l ++ y :: r).dropWhile p = y :: r := by
  induction l with
  | nil => simp [List.takeWhile, List.dropWhile, hy]
  | cons a l ih =>
    have ha : p a = true := hl a (List.mem_cons_self _ _)
    have ih2 := ih (fun x hx => hl x (List.mem_cons_of_mem _ hx))
    simp [List.takeWhile, List.dropWhile, ha, ih2.1, ih2.2]

theorem takeWhile_all {α : Type} (p : α → Bool) (l : List α) (hl : ∀ x ∈ l, p x = true) :
    l.takeWhile p = l ∧ l.dropWhile p = [] := by
  induction l with
  | nil => simp
  | cons a l ih =>
    have ha : p a = true := hl a (List.mem_cons_self _ _)
    have ih2 := ih (fun x hx => hl x (List.mem_cons_of_mem _ hx))
    simp [List.takeWhile, List.dropWhile, ha, ih2.1, ih2.2]

theorem isdigit_not_special (c : Char) (h : isdigit c = true) :
    isspace c = false ∧ c ≠ '-' ∧ c ≠ '+' ∧ c ≠ '.' := by
  simp only [isdigit, Bool.and_eq_true, decide_eq_true_eq] at h
  refine ⟨?_, ?_, ?_, ?_⟩
  · simp only [isspace, Bool.or_eq_false_iff, decide_eq_false_iff_not]
    refine ⟨⟨⟨⟨⟨?_, ?_⟩, ?_⟩, ?_⟩, ?_⟩, ?_⟩ <;> (rintro rfl; revert h; decide)
  all_goals (rintro rfl; revert h; decide)

theorem isdigit_dot : isdigit '.' = false := by decide

/-- Reading back a text made of integer digits, a point and fraction digits. -/
theorem decimal_value_digits_dot_digits (ip fp : List Char) (hne : ip ≠ [])
    (hip : ∀ c ∈ ip, isdigit c = true) (hfp : ∀ c ∈ fp, isdigit c = true) :
    decimal_value (ip ++ '.' :: fp)
      = (decValue ip : ℚ) + (decValue fp : ℚ) / 10 ^ fp.length := by
  obtain ⟨c, ip', rfl⟩ := List.exists_cons_of_ne_nil hne
  have hc := isdigit_not_special c (hip c (List.mem_cons_self _ _))
  have h1 : ((c :: ip') ++ '.' :: fp).dropWhile isspace = (c :: ip') ++ '.' :: fp := by
    simp [List.dropWhile, hc.1]
  have h2 : takeSign ((c :: ip') ++ '.' :: fp) = (false, (c :: ip') ++ '.' :: fp) := by
    simp [takeSign, hc.2.1, hc.2.2.1]
  have h3 := takeWhile_append_stop isdigit (c :: ip') '.' fp hip isdigit_dot
  have h4 := takeWhile_all isdigit fp hfp
  unfold decimal_value
  rw [h1, h2]
  simp only [h3.1, h3.2, h4.1, h4.2, if_true, takeExponent]
  simp

theorem digitChar_spec (d : ℕ) (hd : d < 10) :
    isdigit (digitChar d) = true ∧ digitVal (digitChar d) = d := by
  interval_cases d <;> decide

theorem digitsRev_lt_ten (fuel : ℕ) : ∀ n d, d ∈ digitsRev fuel n → d < 10 := by
  induction fuel with
  | zero => intro n d h; simp [digitsRev] at h
  | succ f ih =>
    intro n d h
    simp only [digitsRev] at h
    split_ifs at h with h0
    · simp at h
    · rcases List.mem_cons.mp h with rfl | h
      · exact Nat.mod_lt _ (by norm_num)
      · exact ih _ _ h

theorem decValue_append_singleton (xs : List Char) (c : Char) :
    decValue (xs ++ [c]) = 10 * decValue xs + digitVal c := by
  simp [decValue, List.foldl_append]

theorem decValue_digits (fuel : ℕ) :
    ∀ n, n ≤ fuel → decValue ((digitsRev fuel n).reverse.map digitChar) = n := by
  induction fuel with
  | zero => intro n h; have : n = 0 := by omega
            subst this; simp [digitsRev, decValue]
  | succ f ih =>
    intro n h
    simp only [digitsRev]
    split_ifs with h0
    · subst h0; simp [decValue]
    · rw [List.reverse_cons, List.map_append, List.map_singleton, decValue_append_singleton,
        ih (n / 10) (by omega), (digitChar_spec (n % 10) (Nat.mod_lt _ (by norm_num))).2]
      omega

theorem digitsRev_length_le (k : ℕ) :
    ∀ fuel n, n < 10 ^ k → (digitsRev fuel n).length ≤ k := by
  induction k with
  | zero =>
    intro fuel n h
    have : n = 0 := by simpa using h
    subst this
    cases fuel <;> simp [digitsRev]
  | succ k ih =>
    intro fuel n h
    cases fuel with
    | zero => simp [digitsRev]
    | succ f =>
      simp only [digitsRev]
      split_ifs with h0
      · simp
      · have : n / 10 < 10 ^ k := by
          rw [Nat.div_lt_iff_lt_mul (by norm_num)]
          rw [pow_succ] at h; exact h
        have := ih f (n / 10) this
        simp only [List.length_cons]; omega

theorem decValue_zero_pad (k : ℕ) (ds : List Char) :
    decValue (List.replicate k '0' ++ ds) = decValue ds := by
  have h0 : ∀ k, List.foldl (fun acc c => 10 * acc + digitVal c) 0 (List.replicate k '0') = 0 := by
    intro k
    induction k with
    | zero => rfl
    | succ k ih =>
      rw [List.replicate_succ, List.foldl_cons]
      have : 10 * 0 + digitVal '0' = 0 := by decide
      rw [this]; exact ih
  simp [decValue, List.foldl_append, h0]

/-- What `%.<prec>ld` prints for a non-negative value: only digits, reading
back as the value, at least `prec` of them. -/
theorem fmt_ld_nonneg (prec : ℕ) (v : ℤ) (hv : 0 ≤ v) :
    (∀ c ∈ fmt_ld prec v, isdigit c = true) ∧ (decValue (fmt_ld prec v) : ℤ) = v ∧
      prec ≤ (fmt_ld prec v).length ∧
      (∀ k, prec ≤ k → v < 10 ^ k → (fmt_ld prec v).length ≤ k) := by
  have hneg : ¬ v < 0 := not_lt.mpr hv
  simp only [fmt_ld, hneg, if_false]
  refine ⟨?_, ?_, ?_, ?_⟩
  · intro c hc
    rcases List.mem_append.mp hc with h | h
    · rw [(List.mem_replicate.mp h).2]; decide
    · obtain ⟨d, hd, rfl⟩ := List.mem_map.mp h
      exact (digitChar_spec d (digitsRev_lt_ten _ _ _ (List.mem_reverse.mp hd))).1
  · rw [decValue_zero_pad, decValue_digits _ _ (le_refl _)]
    exact Int.natAbs_of_nonneg hv
  · simp only [List.length_append, List.length_replicate, List.length_map, List.length_reverse]
    omega
  · intro k hk hlt
    have h1 : v.natAbs < 10 ^ k := by
      have : (v.natAbs : ℤ) < ((10 ^ k : ℕ) : ℤ) := by
        rw [Int.natAbs_of_nonneg hv]; push_cast; exact hlt
      exact_mod_cast this
    have := digitsRev_length_le k v.natAbs v.natAbs h1
    simp only [List.length_append, List.length_replicate, List.length_map, List.length_reverse]
    omega

/-- For a timestamp with non-negative seconds and nanoseconds in
`0 .. 999999999`, `ts_to_double` is the `double` nearest to
`tv_sec + tv_nsec / 10^9`. -/
theorem ts_to_double_eq (ts : timespec) (hsec : 0 ≤ ts.tv_sec)
    (hns0 : 0 ≤ ts.tv_nsec) (hns1 : ts.tv_nsec < 1000000000) :
    ts_to_double ts = round_double ((ts.tv_sec : ℚ) + (ts.tv_nsec : ℚ) / 1000000000) := by
  obtain ⟨a1, a2, a3, -⟩ := fmt_ld_nonneg 1 ts.tv_sec hsec
  obtain ⟨b1, b2, b3, b4⟩ := fmt_ld_nonneg 9 ts.tv_nsec hns0
  have hlen : (fmt_ld 9 ts.tv_nsec).length = 9 :=
    le_antisymm (b4 9 (le_refl _) (by norm_num; exact hns1)) b3
  have hne : fmt_ld 1 ts.tv_sec ≠ [] := by
    intro h; rw [h] at a3; simp at a3
  unfold ts_to_double snprintf_ts atof
  rw [decimal_value_digits_dot_digits _ _ hne a1 b1, hlen]
  have e1 : ((decValue (fmt_ld 1 ts.tv_sec) : ℕ) : ℚ) = (ts.tv_sec : ℚ) := by
    exact_mod_cast congrArg (fun z : ℤ => (z : ℚ)) a2
  have e2 : ((decValue (fmt_ld 9 ts.tv_nsec) : ℕ) : ℚ) = (ts.tv_nsec : ℚ) := by
    exact_mod_cast congrArg (fun z : ℤ => (z : ℚ)) b2
  rw [e1, e2]
  norm_num

/-! ### Rounding to `double` -/

theorem round_half_even_err (q : ℚ) : |(round_half_even q : ℚ) - q| ≤ 1 / 2 := by
  have h1 : (⌊q⌋ : ℚ) ≤ q := Int.floor_le q
  have h2 : q < ⌊q⌋ + 1 := Int.lt_floor_add_one q
  unfold round_half_even
  split_ifs with a b c
  · rw [abs_le]; constructor <;> linarith
  · rw [abs_le]; push_cast; constructor <;> linarith
  · rw [abs_le]; constructor <;> linarith
  · rw [abs_le]; push_cast; constructor <;> linarith

theorem round_half_even_unique (q : ℚ) (n : ℤ) (h : |q - n| < 1 / 2) :
    round_half_even q = n := by
  have e := round_half_even_err q
  have h' := abs_lt.mp h
  have e' := abs_le.mp e
  have l1 : ((round_half_even q - n : ℤ) : ℚ) < 1 := by push_cast; linarith
  have l2 : (-1 : ℚ) < ((round_half_even q - n : ℤ) : ℚ) := by push_cast; linarith
  have l1' : round_half_even q - n < 1 := by exact_mod_cast l1
  have l2' : -1 < round_half_even q - n := by exact_mod_cast l2
  omega

theorem round_double_zero : round_double 0 = 0 := by
  simp [round_double, round_half_even]

theorem log_lt_of_lt_zpow (x : ℚ) (k : ℤ) (hx0 : x ≠ 0) (hx : |x| < 2 ^ k) :
    Int.log 2 |x| < k := by
  have hp : 0 < |x| := abs_pos.mpr hx0
  exact (Int.lt_zpow_iff_log_lt (b := 2) (by norm_num) hp (x := k)).mp (by simpa using hx)

/-- Rounding to `double` moves a number below `2^k` in magnitude by at most
half a unit in the last place of that range, `2^(k-54)`. -/
theorem round_double_err (x : ℚ) (k : ℤ) (hk : -1021 ≤ k) (hx : |x| < 2 ^ k) :
    |round_double x - x| ≤ 2 ^ (k - 54) := by
  by_cases hx0 : x = 0
  · subst hx0; rw [round_double_zero]; simp; positivity
  have hl := log_lt_of_lt_zpow x k hx0 hx
  have hu : ulp_exp x ≤ k - 53 := by
    unfold ulp_exp
    have := max_le (a := Int.log 2 |x|) (b := -1022) (c := k - 1) (by omega) (by omega)
    omega
  have hpos : (0 : ℚ) < 2 ^ ulp_exp x := by positivity
  have e := round_half_even_err (x / 2 ^ ulp_exp x)
  have key : round_double x - x
      = ((round_half_even (x / 2 ^ ulp_exp x) : ℚ) - x / 2 ^ ulp_exp x) * 2 ^ ulp_exp x := by
    unfold round_double; field_simp
  rw [key, abs_mul, abs_of_pos hpos]
  have m : (2 : ℚ) ^ ulp_exp x ≤ 2 ^ (k - 53) := zpow_le_zpow_right₀ (by norm_num) hu
  have s : (2 : ℚ) ^ (k - 53) = 2 * 2 ^ (k - 54) := by
    rw [show k - 53 = (k - 54) + 1 by ring, zpow_add_one₀ (by norm_num)]; ring
  have hnn := abs_nonneg ((round_half_even (x / 2 ^ ulp_exp x) : ℚ) - x / 2 ^ ulp_exp x)
  nlinarith

/-- The `double` of a number of binary exponent `e` that lies within half a
unit in the last place of `n` units. -/
theorem round_double_of (x : ℚ) (e n : ℤ) (he : -1022 ≤ e) (h1 : 2 ^ e ≤ |x|)
    (h2 : |x| < 2 ^ (e + 1)) (hn : |x / 2 ^ (e - 52) - n| < 1 / 2) :
    round_double x = n * 2 ^ (e - 52) := by
  have hp : 0 < |x| := lt_of_lt_of_le (by positivity) h1
  have a : e ≤ Int.log 2 |x| :=
    (Int.zpow_le_iff_le_log (b := 2) (by norm_num) hp (x := e)).mp (by simpa using h1)
  have b : Int.log 2 |x| < e + 1 :=
    (Int.lt_zpow_iff_log_lt (b := 2) (by norm_num) hp (x := e + 1)).mp (by simpa using h2)
  have hl : Int.log 2 |x| = e := by omega
  have hu : ulp_exp x = e - 52 := by unfold ulp_exp; rw [hl, max_eq_left he]
  unfold round_double
  rw [hu, round_half_even_unique _ n hn]

/-- The value of a timestamp lies in `[0, 2^k)` when its seconds do. -/
theorem timespec_value_bound (ts : timespec) (k : ℕ) (hsec : 0 ≤ ts.tv_sec)
    (hk : ts.tv_sec < 2 ^ k) (hns0 : 0 ≤ ts.tv_nsec) (hns1 : ts.tv_nsec < 1000000000) :
    0 ≤ (ts.tv_sec : ℚ) + (ts.tv_nsec : ℚ) / 1000000000 ∧
    (ts.tv_sec : ℚ) + (ts.tv_nsec : ℚ) / 1000000000 < 2 ^ (k : ℤ) := by
  have a : (0 : ℚ) ≤ ts.tv_sec := by exact_mod_cast hsec
  have b : (0 : ℚ) ≤ ts.tv_nsec := by exact_mod_cast hns0
  have c : (ts.tv_nsec : ℚ) < 1000000000 := by exact_mod_cast hns1
  have d : (ts.tv_sec : ℚ) + 1 ≤ 2 ^ k := by
    have : ts.tv_sec + 1 ≤ 2 ^ k := by omega
    exact_mod_cast this
  have e : (ts.tv_nsec : ℚ) / 1000000000 < 1 := by
    rw [div_lt_one (by norm_num)]; exact c
  refine ⟨by positivity, ?_⟩
  rw [zpow_natCast]
  linarith

/-- The error of `diff_ts` on timestamps whose seconds are below `2^k`: at
most `2^(k-52)`. -/
theorem diff_ts_err (k : ℕ) (start end_ : timespec)
    (hs : 0 ≤ start.tv_sec ∧ start.tv_sec < 2 ^ k)
    (hsn : 0 ≤ start.tv_nsec ∧ start.tv_nsec < 1000000000)
    (he : 0 ≤ end_.tv_sec ∧ end_.tv_sec < 2 ^ k)
    (hen : 0 ≤ end_.tv_nsec ∧ end_.tv_nsec < 1000000000) :
    |ts_to_double start - ((start.tv_sec : ℚ) + (start.tv_nsec : ℚ) / 1000000000)|
      ≤ 2 ^ ((k : ℤ) - 54) ∧
    |ts_to_double end_ - ((end_.tv_sec : ℚ) + (end_.tv_nsec : ℚ) / 1000000000)|
      ≤ 2 ^ ((k : ℤ) - 54) ∧
    |diff_ts start end_ - (((end_.tv_sec : ℚ) + (end_.tv_nsec : ℚ) / 1000000000)
        - ((start.tv_sec : ℚ) + (start.tv_nsec : ℚ) / 1000000000))|
      ≤ 2 ^ ((k : ℤ) - 52) := by
  obtain ⟨b0, b1⟩ := timespec_value_bound start k hs.1 hs.2 hsn.1 hsn.2
  obtain ⟨a0, a1⟩ := timespec_value_bound end_ k he.1 he.2 hen.1 hen.2
  have hk : (-1021 : ℤ) ≤ (k : ℤ) := by omega
  have eb := round_double_err _ (k : ℤ) hk (by rw [abs_of_nonneg b0]; exact b1)
  have ea := round_double_err _ (k : ℤ) hk (by rw [abs_of_nonneg a0]; exact a1)
  rw [← ts_to_double_eq start hs.1 hsn.1 hsn.2] at eb
  rw [← ts_to_double_eq end_ he.1 hen.1 hen.2] at ea
  have p54 : (0 : ℚ) < 2 ^ ((k : ℤ) - 54) := by positivity
  have s53 : (2 : ℚ) ^ ((k : ℤ) - 53) = 2 * 2 ^ ((k : ℤ) - 54) := by
    rw [show (k : ℤ) - 53 = ((k : ℤ) - 54) + 1 by ring, zpow_add_one₀ (by norm_num)]; ring
  have s52 : (2 : ℚ) ^ ((k : ℤ) - 52) = 4 * 2 ^ ((k : ℤ) - 54) := by
    rw [show (k : ℤ) - 52 = ((k : ℤ) - 54) + 1 + 1 by ring, zpow_add_one₀ (by norm_num),
      zpow_add_one₀ (by norm_num)]; ring
  have sk : (2 : ℚ) ^ (k : ℤ) = 2 ^ 54 * 2 ^ ((k : ℤ) - 54) := by
    rw [show (k : ℤ) = ((k : ℤ) - 54) + 54 by ring, zpow_add₀ (by norm_num)]
    norm_num
    ring_nf
  have sk1 : (2 : ℚ) ^ ((k : ℤ) + 1) = 2 * 2 ^ (k : ℤ) := by
    rw [zpow_add_one₀ (by norm_num)]; ring
  have eb' := abs_le.mp eb
  have ea' := abs_le.mp ea
  have hd : |ts_to_double end_ - ts_to_double start| < 2 ^ ((k : ℤ) + 1) := by
    rw [abs_lt, sk1, sk]
    constructor <;> nlinarith
  have ed := round_double_err (ts_to_double end_ - ts_to_double start) ((k : ℤ) + 1)
    (by omega) hd
  rw [show (k : ℤ) + 1 - 54 = (k : ℤ) - 53 by ring, s53] at ed
  have ed' := abs_le.mp ed
  refine ⟨eb, ea, ?_⟩
  unfold diff_ts
  rw [abs_le, s52]
  constructor <;> linarith

/-- The `double` values of the timestamps 5.9995 s and 6.0005 s and of their
difference, which `diff_ts` returns without further rounding. -/
theorem diff_ts_example :
    ts_to_double ⟨5, 999500000⟩ = 6754836491102323 / 2 ^ 50 ∧
    ts_to_double ⟨6, 500000⟩ = 6755962391009165 / 2 ^ 50 ∧
    diff_ts ⟨5, 999500000⟩ ⟨6, 500000⟩ = 562949953421 / 2 ^ 49 := by
  have e5 : (((5 : ℤ) : ℚ) + ((999500000 : ℤ) : ℚ) / 1000000000) = 11999 / 2000 := by norm_num
  have e6 : (((6 : ℤ) : ℚ) + ((500000 : ℤ) : ℚ) / 1000000000) = 12001 / 2000 := by norm_num
  have h5 : ts_to_double ⟨5, 999500000⟩ = 6754836491102323 / 2 ^ 50 := by
    rw [ts_to_double_eq _ (by decide) (by decide) (by decide)]
    show round_double (((5 : ℤ) : ℚ) + ((999500000 : ℤ) : ℚ) / 1000000000) = _
    rw [e5, round_double_of (11999 / 2000) 2 6754836491102323 (by norm_num)
      (by rw [abs_of_pos (by norm_num)]; norm_num)
      (by rw [abs_of_pos (by norm_num)]; norm_num)
      (by rw [abs_lt]; constructor <;> norm_num)]
    norm_num
  have h6 : ts_to_double ⟨6, 500000⟩ = 6755962391009165 / 2 ^ 50 := by
    rw [ts_to_double_eq _ (by decide) (by decide) (by decide)]
    show round_double (((6 : ℤ) : ℚ) + ((500000 : ℤ) : ℚ) / 1000000000) = _
    rw [e6, round_double_of (12001 / 2000) 2 6755962391009165 (by norm_num)
      (by rw [abs_of_pos (by norm_num)]; norm_num)
      (by rw [abs_of_pos (by norm_num)]; norm_num)
      (by rw [abs_lt]; constructor <;> norm_num)]
    norm_num
  refine ⟨h5, h6, ?_⟩
  unfold diff_ts
  rw [h5, h6]
  have ed : (6755962391009165 / 2 ^ 50 - 6754836491102323 / 2 ^ 50 : ℚ)
      = 562949953421 / 2 ^ 49 := by norm_num
  rw [ed, round_double_of (562949953421 / 2 ^ 49) (-10) 4611686018424832 (by norm_num)
    (by rw [abs_of_pos (by norm_num)]; norm_num)
    (by rw [abs_of_pos (by norm_num)]; norm_num)
    (by rw [abs_lt]; constructor <;> norm_num)]
  norm_num

/-- C5 (as stated, refuted): the timestamps 5.999500000 s and 6.000500000 s
are exactly 1,000,000 ns apart across a second boundary, and `diff_ts`
returns the double `562949953421 / 2^49` (`0x1.0624dd2f1a000p-10`), which is
neither 0.001 nor the exact difference of the two timestamps. -/
theorem C5_diff_ts_not_exact :
    (6 : ℤ) * 1000000000 + 500000 = 5 * 1000000000 + 999500000 + 1000000 ∧
    diff_ts ⟨5, 999500000⟩ ⟨6, 500000⟩ = 562949953421 / 2 ^ 49 ∧
    diff_ts ⟨5, 999500000⟩ ⟨6, 500000⟩ ≠ 1 / 1000 ∧
    diff_ts ⟨5, 999500000⟩ ⟨6, 500000⟩
      ≠ (((6 - 5 : ℤ) : ℚ) + ((500000 - 999500000 : ℤ) : ℚ) / 10 ^ 9) := by
  have h := diff_ts_example.2.2
  refine ⟨by decide, h, ?_, ?_⟩
  · rw [h]; norm_num
  · rw [h]; norm_num

/-- C5 (amended): for timestamps with `0 ≤ tv_sec < 2^k` (`k ≤ 63`) and
nanoseconds in `0 .. 999999999`, `ts_to_double` reads the printed text as the
`double` nearest to `tv_sec + tv_nsec / 10^9`, and `diff_ts` returns
`(end.tv_sec - start.tv_sec) + (end.tv_nsec - start.tv_nsec) / 10^9` up to an
absolute error of `2^(k-52)` (no truncation to whole seconds); when `end` is
exactly 1,000,000 ns after `start`, whether or not a whole-second boundary
lies between them, `diff_ts` is within `2^(k-52)` of 0.001. -/
theorem C5_diff_ts_within_rounding (k : ℕ) (start end_ : timespec) (_hk : k ≤ 63)
    (hs : 0 ≤ start.tv_sec ∧ start.tv_sec < 2 ^ k)
    (hsn : 0 ≤ start.tv_nsec ∧ start.tv_nsec < 1000000000)
    (he : 0 ≤ end_.tv_sec ∧ end_.tv_sec < 2 ^ k)
    (hen : 0 ≤ end_.tv_nsec ∧ end_.tv_nsec < 1000000000) :
    ts_to_double start = round_double ((start.tv_sec : ℚ) + (start.tv_nsec : ℚ) / 10 ^ 9) ∧
    ts_to_double end_ = round_double ((end_.tv_sec : ℚ) + (end_.tv_nsec : ℚ) / 10 ^ 9) ∧
    |diff_ts start end_ - (((end_.tv_sec - start.tv_sec : ℤ) : ℚ)
        + ((end_.tv_nsec - start.tv_nsec : ℤ) : ℚ) / 10 ^ 9)| ≤ 2 ^ ((k : ℤ) - 52) ∧
    (end_.tv_sec * 1000000000 + end_.tv_nsec
        = start.tv_sec * 1000000000 + start.tv_nsec + 1000000 →
      |diff_ts start end_ - 1 / 1000| ≤ 2 ^ ((k : ℤ) - 52)) := by
  have h1 := ts_to_double_eq start hs.1 hsn.1 hsn.2
  have h2 := ts_to_double_eq end_ he.1 hen.1 hen.2
  obtain ⟨-, -, hd⟩ := diff_ts_err k start end_ hs hsn he hen
  have hexact : (((end_.tv_sec - start.tv_sec : ℤ) : ℚ)
        + ((end_.tv_nsec - start.tv_nsec : ℤ) : ℚ) / 10 ^ 9)
      = ((end_.tv_sec : ℚ) + (end_.tv_nsec : ℚ) / 1000000000)
        - ((start.tv_sec : ℚ) + (start.tv_nsec : ℚ) / 1000000000) := by
    push_cast; ring
  refine ⟨by rw [h1]; norm_num, by rw [h2]; norm_num, by rw [hexact]; exact hd, ?_⟩
  intro h
  have hq : (end_.tv_sec : ℚ) * 1000000000 + (end_.tv_nsec : ℚ)
      = (start.tv_sec : ℚ) * 1000000000 + (start.tv_nsec : ℚ) + 1000000 := by
    exact_mod_cast congrArg (fun z : ℤ => (z : ℚ)) h
  have hm : ((end_.tv_sec : ℚ) + (end_.tv_nsec : ℚ) / 1000000000)
        - ((start.tv_sec : ℚ) + (start.tv_nsec : ℚ) / 1000000000) = 1 / 1000 := by
    linarith
  rw [← hm]; exact hd

/-- C5 (amended) at the timestamps 5.999500000 s and 6.000500000 s, with
`k = 31`: the error is at most `2^(-21)` s, under half a microsecond. -/
theorem C5_diff_ts_within_rounding_witness :
    ((31 : ℕ) ≤ 63 ∧ ((0 : ℤ) ≤ 5 ∧ (5 : ℤ) < 2 ^ 31) ∧
      ((0 : ℤ) ≤ 999500000 ∧ (999500000 : ℤ) < 1000000000) ∧
      ((0 : ℤ) ≤ 6 ∧ (6 : ℤ) < 2 ^ 31) ∧
      ((0 : ℤ) ≤ 500000 ∧ (500000 : ℤ) < 1000000000) ∧
      (6 : ℤ) * 1000000000 + 500000 = 5 * 1000000000 + 999500000 + 1000000) ∧
    |diff_ts ⟨5, 999500000⟩ ⟨6, 500000⟩ - 1 / 1000| ≤ 2 ^ (((31 : ℕ) : ℤ) - 52) :=
  ⟨by norm_num, (C5_diff_ts_within_rounding 31 ⟨5, 999500000⟩ ⟨6, 500000⟩ (by norm_num)
    (by norm_num) (by norm_num) (by norm_num) (by norm_num)).2.2.2 (by norm_num)⟩

/-- The sample `diff_ts` returns for the first two readings of the calm
clock, 0 s and 0.001 s: the `double` nearest to 0.001
(`0x1.0624dd2f1a9fcp-10`). -/
theorem diff_ts_calm_first :
    diff_ts ⟨0, 0⟩ ⟨0, 1000000⟩ = 1152921504606847 / 2 ^ 60 := by
  have e0 : (((0 : ℤ) : ℚ) + ((0 : ℤ) : ℚ) / 1000000000) = 0 := by norm_num
  have e1 : (((0 : ℤ) : ℚ) + ((1000000 : ℤ) : ℚ) / 1000000000) = 1 / 1000 := by norm_num
  have h0 : ts_to_double ⟨0, 0⟩ = 0 := by
    rw [ts_to_double_eq _ (by decide) (by decide) (by decide)]
    show round_double (((0 : ℤ) : ℚ) + ((0 : ℤ) : ℚ) / 1000000000) = _
    rw [e0, round_double_zero]
  have h1 : ts_to_double ⟨0, 1000000⟩ = 1152921504606847 / 2 ^ 60 := by
    rw [ts_to_double_eq _ (by decide) (by decide) (by decide)]
    show round_double (((0 : ℤ) : ℚ) + ((1000000 : ℤ) : ℚ) / 1000000000) = _
    rw [e1, round_double_of (1 / 1000) (-10) 4611686018427388 (by norm_num)
      (by rw [abs_of_pos (by norm_num)]; norm_num)
      (by rw [abs_of_pos (by norm_num)]; norm_num)
      (by rw [abs_lt]; constructor <;> norm_num)]
    norm_num
  unfold diff_ts
  rw [h0, h1, sub_zero, round_double_of (1152921504606847 / 2 ^ 60) (-10) 4611686018427388
    (by norm_num)
    (by rw [abs_of_pos (by norm_num)]; norm_num)
    (by rw [abs_of_pos (by norm_num)]; norm_num)
    (by rw [abs_lt]; constructor <;> norm_num)]
  norm_num

/-- At `tv_sec = 2^53` the unit in the last place of a `double` is 2 s: two
timestamps 1,000,000 ns apart become the same `double` and `diff_ts` returns 0. -/
theorem diff_ts_example_large :
    diff_ts ⟨9007199254740992, 0⟩ ⟨9007199254740992, 1000000⟩ = 0 := by
  have e0 : (((9007199254740992 : ℤ) : ℚ) + ((0 : ℤ) : ℚ) / 1000000000)
      = 9007199254740992 := by norm_num
  have e1 : (((9007199254740992 : ℤ) : ℚ) + ((1000000 : ℤ) : ℚ) / 1000000000)
      = 9007199254740992001 / 1000 := by norm_num
  have h0 : ts_to_double ⟨9007199254740992, 0⟩ = 9007199254740992 := by
    rw [ts_to_double_eq _ (by decide) (by decide) (by decide)]
    show round_double (((9007199254740992 : ℤ) : ℚ) + ((0 : ℤ) : ℚ) / 1000000000) = _
    rw [e0, round_double_of 9007199254740992 53 4503599627370496 (by norm_num)
      (by rw [abs_of_pos (by norm_num)]; norm_num)
      (by rw [abs_of_pos (by norm_num)]; norm_num)
      (by rw [abs_lt]; constructor <;> norm_num)]
    norm_num
  have h1 : ts_to_double ⟨9007199254740992, 1000000⟩ = 9007199254740992 := by
    rw [ts_to_double_eq _ (by decide) (by decide) (by decide)]
    show round_double (((9007199254740992 : ℤ) : ℚ) + ((1000000 : ℤ) : ℚ) / 1000000000) = _
    rw [e1, round_double_of (9007199254740992001 / 1000) 53 4503599627370496 (by norm_num)
      (by rw [abs_of_pos (by norm_num)]; norm_num)
      (by rw [abs_of_pos (by norm_num)]; norm_num)
      (by rw [abs_lt]; constructor <;> norm_num)]
    norm_num
  unfold diff_ts
  rw [h0, h1, sub_self, round_double_zero]

/-! ### Descriptor table -/

theorem lookupFd_filter (fds : List (ℤ × (ℤ × Kind))) (fd fd' : ℤ) :
    lookupFd (fds.filter (fun e => !decide (e.1 = fd))) fd'
      = if fd' = fd then none else lookupFd fds fd' := by
  induction fds with
  | nil => simp [lookupFd]
  | cons e rest ih =>
    obtain ⟨k, f⟩ := e
    by_cases hk : k = fd
    · subst hk
      by_cases h : fd' = k
      · subst h; simpa [List.filter, lookupFd] using ih
      · have h' : ¬ k = fd' := fun e => h e.symm
        simpa [List.filter, lookupFd, h, h'] using ih
    · by_cases h : fd' = fd
      · subst h; simpa [List.filter, lookupFd, hk] using ih
      · simp [List.filter, lookupFd, ih, hk, h]

/-! ### Sequencing and the loop over the lines -/

theorem bind_ok {α β : Type} (a : α) (w : World) (f : α → World → Outcome β) :
    (Outcome.ok a w).bind f = f a w := rfl

theorem bind_exit {α β : Type} (st : ℤ) (w : World) (f : α → World → Outcome β) :
    (Outcome.exit st w : Outcome α).bind f = Outcome.exit st w := rfl

theorem bind_spin {α β : Type} (w : World) (f : α → World → Outcome β) :
    (Outcome.spin w : Outcome α).bind f = Outcome.spin w := rfl

theorem for_dio_zero (body : ℕ → World → Outcome Unit) (i : ℕ) (w : World) :
    for_dio body 0 i w = .ok () w := rfl

theorem for_dio_succ (body : ℕ → World → Outcome Unit) (count i : ℕ) (w : World) :
    for_dio body (count + 1) i w
      = (body i w).bind (fun _ w => for_dio body count (i + 1) w) := rfl

theorem for_dio_add (body : ℕ → World → Outcome Unit) (a b : ℕ) :
    ∀ i w, for_dio body (a + b) i w
      = (for_dio body a i w).bind (fun _ w => for_dio body b (i + a) w) := by
  induction a with
  | zero => intro i w; simp [for_dio_zero, bind_ok]
  | succ a ih =>
    intro i w
    rw [Nat.succ_add, for_dio_succ, for_dio_succ]
    cases h : body i w with
    | ok u w1 =>
      rw [bind_ok, bind_ok, ih (i + 1) w1]
      have : i + 1 + a = i + (a + 1) := by omega
      rw [this]
    | exit st w1 => rfl
    | spin w1 => rfl

/-! ### Setup -/

theorem lookupFd_cons (k fd : ℤ) (f : ℤ × Kind) (rest : List (ℤ × (ℤ × Kind))) :
    lookupFd ((k, f) :: rest) fd = if k = fd then some f else lookupFd rest fd := rfl

theorem countP_ge_step (fds : List (ℤ × (ℤ × Kind))) (k : ℤ) :
    fds.countP (fun e => decide (k + 1 ≤ e.1)) ≤ fds.countP (fun e => decide (k ≤ e.1)) ∧
    ((lookupFd fds k).isSome = true →
      fds.countP (fun e => decide (k + 1 ≤ e.1)) < fds.countP (fun e => decide (k ≤ e.1))) := by
  induction fds with
  | nil => simp [lookupFd]
  | cons e rest ih =>
    obtain ⟨a, f⟩ := e
    obtain ⟨ih1, ih2⟩ := ih
    rw [lookupFd_cons, List.countP_cons, List.countP_cons]
    by_cases hak : a = k
    · subst hak
      have h1 : ¬ (a + 1 ≤ a) := by omega
      simp only [h1, decide_False, le_refl, decide_True, if_true]
      simp
      omega
    · by_cases h1 : k + 1 ≤ a
      · have h2 : k ≤ a := by omega
        simp only [h1, h2, decide_True, if_true, if_neg hak]
        refine ⟨by omega, fun h => ?_⟩
        have := ih2 h; omega
      · have h2 : ¬ k ≤ a := by omega
        simp only [h1, h2, decide_False, if_neg hak]
        refine ⟨by simpa using ih1, fun h => ?_⟩
        have := ih2 h; simpa using this

theorem lowestFreeFrom_spec (fds : List (ℤ × (ℤ × Kind))) :
    ∀ (fuel : ℕ) (k : ℤ), fds.countP (fun e => decide (k ≤ e.1)) ≤ fuel →
      lookupFd fds (lowestFreeFrom fds fuel k) = none ∧ k ≤ lowestFreeFrom fds fuel k := by
  intro fuel
  induction fuel with
  | zero =>
    intro k h
    simp only [lowestFreeFrom]
    refine ⟨?_, le_refl _⟩
    cases hl : lookupFd fds k with
    | none => rfl
    | some f =>
      have := (countP_ge_step fds k).2 (by rw [hl]; rfl)
      omega
  | succ n ih =>
    intro k h
    simp only [lowestFreeFrom]
    split_ifs with hs
    · have hlt := (countP_ge_step fds k).2 hs
      obtain ⟨a, b⟩ := ih (k + 1) (by omega)
      exact ⟨a, by omega⟩
    · refine ⟨?_, le_refl _⟩
      cases hl : lookupFd fds k with
      | none => rfl
      | some f => rw [hl] at hs; simp at hs

/-- The descriptor returned by `open` is not open yet and is not negative. -/
theorem lowestFree_spec (fds : List (ℤ × (ℤ × Kind))) :
    lookupFd fds (lowestFree fds) = none ∧ 3 ≤ lowestFree fds :=
  lowestFreeFrom_spec fds fds.length 3 (List.countP_le_length _)

theorem change_dir_dio_ok (env : Env) (g : dio_grp) (dir : String) (w : World) (pin : ℤ) (p : Pin)
    (hfd : lookupFd w.fds g.direction_fd = some (pin, Kind.direction))
    (hw : env.write_fails pin Kind.direction dir = false)
    (hs : (w.pins pin).store Kind.direction dir = some p) :
    change_dir_dio env g dir w = .ok ()
      { w with pins := Function.update w.pins pin p,
               trace := w.trace ++ [.lseek g.direction_fd, .write g.direction_fd dir true] } := by
  simp [change_dir_dio, sys_lseek, sys_write, World.log, hfd, hw, hs]

theorem change_val_dio_ok (env : Env) (g : dio_grp) (val : String) (w : World) (pin : ℤ) (p : Pin)
    (hfd : lookupFd w.fds g.value_fd = some (pin, Kind.value))
    (hw : env.write_fails pin Kind.value val = false)
    (hs : (w.pins pin).store Kind.value val = some p) :
    change_val_dio env g val w = .ok ()
      { w with pins := Function.update w.pins pin p,
               trace := w.trace ++ [.lseek g.value_fd, .write g.value_fd val true] } := by
  simp [change_val_dio, sys_lseek, sys_write, World.log, hfd, hw, hs]

theorem change_dir_dio_fail (env : Env) (g : dio_grp) (dir : String) (w : World) (pin : ℤ)
    (hfd : lookupFd w.fds g.direction_fd = some (pin, Kind.direction))
    (hw : env.write_fails pin Kind.direction dir = true) :
    change_dir_dio env g dir w = .exit 1
      { w with trace := w.trace ++ [.lseek g.direction_fd, .write g.direction_fd dir false,
          .perror "write direction"] } := by
  simp [change_dir_dio, sys_lseek, sys_write, World.log, hfd, hw, perror]

theorem change_val_dio_fail (env : Env) (g : dio_grp) (val : String) (w : World) (pin : ℤ)
    (hfd : lookupFd w.fds g.value_fd = some (pin, Kind.value))
    (hw : env.write_fails pin Kind.value val = true) :
    change_val_dio env g val w = .exit 1
      { w with trace := w.trace ++ [.lseek g.value_fd, .write g.value_fd val false,
          .perror "write value"] } := by
  simp [change_val_dio, sys_lseek, sys_write, World.log, hfd, hw, perror]

/-- The two opens of `open_dio` succeed: both descriptors are new, stored in
`g_dio_grp[i]` and open on the files of pin `g.dio`; nothing else changes. -/
theorem open_dio_ok (env : Env) (w : World) (i : ℕ) (g : dio_grp)
    (h1 : env.open_fails g.dio Kind.value = false)
    (h2 : env.open_fails g.dio Kind.direction = false) :
    ∃ w', open_dio env i g w = .ok () w' ∧
      lookupFd w'.fds (w'.g_dio_grp i).value_fd = some (g.dio, Kind.value) ∧
      lookupFd w'.fds (w'.g_dio_grp i).direction_fd = some (g.dio, Kind.direction) ∧
      (∀ j, (w'.g_dio_grp j).dio = (w.g_dio_grp j).dio) ∧
      (∀ j, j ≠ i → w'.g_dio_grp j = w.g_dio_grp j) ∧
      (∀ fd t, lookupFd w.fds fd = some t → lookupFd w'.fds fd = some t) ∧
      w'.pins = w.pins ∧ w'.handler = w.handler := by
  obtain ⟨f1, p1⟩ := lowestFree_spec w.fds
  obtain ⟨f2, p2⟩ := lowestFree_spec ((lowestFree w.fds, (g.dio, Kind.value)) :: w.fds)
  have n1 : ¬ lowestFree w.fds < 0 := by omega
  have n2 : ¬ lowestFree ((lowestFree w.fds, (g.dio, Kind.value)) :: w.fds) < 0 := by omega
  have hne : lowestFree w.fds ≠ lowestFree ((lowestFree w.fds, (g.dio, Kind.value)) :: w.fds) := by
    intro h
    rw [lookupFd_cons, if_pos h] at f2
    simp at f2
  have f2' : lookupFd w.fds (lowestFree ((lowestFree w.fds, (g.dio, Kind.value)) :: w.fds)) = none := by
    rw [lookupFd_cons, if_neg hne] at f2; exact f2
  refine ⟨(open_dio env i g w).world, ?_, ?_, ?_, ?_, ?_, ?_, ?_, ?_⟩
  · simp [open_dio, sys_open, h1, h2, n1, n2, World.log, World.set_value_fd,
      World.set_direction_fd, Outcome.world]
  · simp [open_dio, sys_open, h1, h2, n1, n2, World.log, World.set_value_fd,
      World.set_direction_fd, Outcome.world, lookupFd_cons, hne.symm]
  · simp [open_dio, sys_open, h1, h2, n1, n2, World.log, World.set_value_fd,
      World.set_direction_fd, Outcome.world, lookupFd_cons]
  · intro j
    by_cases hj : j = i
    · subst hj
      simp [open_dio, sys_open, h1, h2, n1, n2, World.log, World.set_value_fd,
        World.set_direction_fd, Outcome.world]
    · simp [open_dio, sys_open, h1, h2, n1, n2, World.log, World.set_value_fd,
        World.set_direction_fd, Outcome.world, Function.update_noteq hj]
  · intro j hj
    simp [open_dio, sys_open, h1, h2, n1, n2, World.log, World.set_value_fd,
      World.set_direction_fd, Outcome.world, Function.update_noteq hj]
  · intro fd t ht
    have a1 : lowestFree w.fds ≠ fd := by
      intro h; rw [h] at f1; rw [f1] at ht; simp at ht
    have a2 : lowestFree ((lowestFree w.fds, (g.dio, Kind.value)) :: w.fds) ≠ fd := by
      intro h; rw [h] at f2'; rw [f2'] at ht; simp at ht
    simp [open_dio, sys_open, h1, h2, n1, n2, World.log, World.set_value_fd,
      World.set_direction_fd, Outcome.world, lookupFd_cons, a1, a2, ht]
  · simp [open_dio, sys_open, h1, h2, n1, n2, World.log, World.set_value_fd,
      World.set_direction_fd, Outcome.world]
  · simp [open_dio, sys_open, h1, h2, n1, n2, World.log, World.set_value_fd,
      World.set_direction_fd, Outcome.world]

theorem World.keeps_line_open (w w' : World) (i j : ℕ) (hk : w.keeps w' i) (hj : j ≠ i)
    (ho : w.line_open j) : w'.line_open j := by
  obtain ⟨-, k2, k3, -⟩ := hk
  unfold World.line_open at ho ⊢
  rw [k2 j hj]
  exact ⟨k3 _ _ ho.1, k3 _ _ ho.2⟩

/-- In `open_dio` with a failing open: the process ends with status 1; when only
the second open failed the value descriptor stays open. -/
theorem open_dio_fail (env : Env) (w : World) (i : ℕ) (g : dio_grp)
    (h : ¬ (env.open_fails g.dio Kind.value = false ∧ env.open_fails g.dio Kind.direction = false)) :
    ∃ w', open_dio env i g w = .exit 1 w' ∧ w.keeps w' i ∧
      (env.open_fails g.dio Kind.value = false →
        lookupFd w'.fds (w'.g_dio_grp i).value_fd = some (g.dio, Kind.value)) := by
  by_cases h1 : env.open_fails g.dio Kind.value = false
  · have h2 : env.open_fails g.dio Kind.direction = true := by simpa [h1] using h
    obtain ⟨f1, p1⟩ := lowestFree_spec w.fds
    have n1 : ¬ lowestFree w.fds < 0 := by omega
    refine ⟨(open_dio env i g w).world, ?_, ⟨?_, ?_, ?_, ?_⟩, ?_⟩
    · simp [open_dio, sys_open, h1, h2, n1, World.log, World.set_value_fd,
        World.set_direction_fd, Outcome.world, perror]
    · intro j
      by_cases hj : j = i
      · subst hj
        simp [open_dio, sys_open, h1, h2, n1, World.log, World.set_value_fd,
          World.set_direction_fd, Outcome.world, perror]
      · simp [open_dio, sys_open, h1, h2, n1, World.log, World.set_value_fd,
          World.set_direction_fd, Outcome.world, perror, Function.update_noteq hj]
    · intro j hj
      simp [open_dio, sys_open, h1, h2, n1, World.log, World.set_value_fd,
        World.set_direction_fd, Outcome.world, perror, Function.update_noteq hj]
    · intro fd t ht
      have a1 : lowestFree w.fds ≠ fd := by
        intro h; rw [h] at f1; rw [f1] at ht; simp at ht
      simp [open_dio, sys_open, h1, h2, n1, World.log, World.set_value_fd,
        World.set_direction_fd, Outcome.world, perror, lookupFd_cons, a1, ht]
    · simp [open_dio, sys_open, h1, h2, n1, World.log, World.set_value_fd,
        World.set_direction_fd, Outcome.world, perror]
    · intro _
      simp [open_dio, sys_open, h1, h2, n1, World.log, World.set_value_fd,
        World.set_direction_fd, Outcome.world, perror, lookupFd_cons]
  · have h1' : env.open_fails g.dio Kind.value = true := by simpa using h1
    refine ⟨(open_dio env i g w).world, ?_, ⟨?_, ?_, ?_, ?_⟩, ?_⟩
    · simp [open_dio, sys_open, h1', World.log, World.set_value_fd, Outcome.world, perror]
    · intro j
      by_cases hj : j = i
      · subst hj
        simp [open_dio, sys_open, h1', World.log, World.set_value_fd, Outcome.world, perror]
      · simp [open_dio, sys_open, h1', World.log, World.set_value_fd, Outcome.world, perror,
          Function.update_noteq hj]
    · intro j hj
      simp [open_dio, sys_open, h1', World.log, World.set_value_fd, Outcome.world, perror,
        Function.update_noteq hj]
    · intro fd t ht
      simp [open_dio, sys_open, h1', World.log, World.set_value_fd, Outcome.world, perror, ht]
    · simp [open_dio, sys_open, h1', World.log, World.set_value_fd, Outcome.world, perror]
    · intro hc; rw [hc] at h1'; simp at h1'

/-- The body of the setup loop on a line whose four calls succeed. -/
theorem setup_one_ok (env : Env) (w : World) (i : ℕ) (hs : env.setup_ok w i) :
    ∃ w', setup_one env i w = .ok () w' ∧ w'.line_open i ∧ w.keeps w' i := by
  obtain ⟨s1, s2, s3, s4⟩ := hs
  obtain ⟨w1, hr1, hv, hd, k1, k2, k3, hp, hh⟩ := open_dio_ok env w i (w.g_dio_grp i) s1 s2
  have hdio : (w1.g_dio_grp i).dio = (w.g_dio_grp i).dio := k1 i
  have e1 := change_dir_dio_ok env (w1.g_dio_grp i) "out" w1 (w.g_dio_grp i).dio
    { w1.pins (w.g_dio_grp i).dio with direction := .output } hd s3 (by simp [Pin.store])
  have e2 := fun w2 (hfd : lookupFd w2.fds (w1.g_dio_grp i).value_fd
      = some ((w.g_dio_grp i).dio, Kind.value)) =>
    change_val_dio_ok env (w1.g_dio_grp i) "0" w2 (w.g_dio_grp i).dio
      { w2.pins (w.g_dio_grp i).dio with value := 0 } hfd s4 (by simp [Pin.store])
  refine Exists.intro ?w (And.intro ?h1 (And.intro ?h2 ?h3))
  case h1 =>
    rw [setup_one, hr1, bind_ok, e1, bind_ok]
    refine e2 _ ?_
    exact hv
  case h2 =>
    constructor
    · show lookupFd w1.fds (w1.g_dio_grp i).value_fd = some ((w1.g_dio_grp i).dio, Kind.value)
      rw [hdio]; exact hv
    · show lookupFd w1.fds (w1.g_dio_grp i).direction_fd
        = some ((w1.g_dio_grp i).dio, Kind.direction)
      rw [hdio]; exact hd
  case h3 => exact ⟨k1, k2, k3, hh⟩

/-- The body of the setup loop on a line one of whose calls fails: the
process ends with status 1 and nothing is closed. -/
theorem setup_one_fail (env : Env) (w : World) (i : ℕ) (hs : ¬ env.setup_ok w i) :
    ∃ w', setup_one env i w = .exit 1 w' ∧ w.keeps w' i ∧
      (env.open_fails (w.g_dio_grp i).dio Kind.value = false →
        lookupFd w'.fds (w'.g_dio_grp i).value_fd = some ((w.g_dio_grp i).dio, Kind.value)) ∧
      (env.open_fails (w.g_dio_grp i).dio Kind.value = false →
        env.open_fails (w.g_dio_grp i).dio Kind.direction = false → w'.line_open i) := by
  by_cases hopen : env.open_fails (w.g_dio_grp i).dio Kind.value = false ∧
      env.open_fails (w.g_dio_grp i).dio Kind.direction = false
  · obtain ⟨s1, s2⟩ := hopen
    obtain ⟨w1, hr1, hv, hd, k1, k2, k3, hp, hh⟩ := open_dio_ok env w i (w.g_dio_grp i) s1 s2
    have hdio : (w1.g_dio_grp i).dio = (w.g_dio_grp i).dio := k1 i
    by_cases s3 : env.write_fails (w.g_dio_grp i).dio Kind.direction "out" = false
    · have s4 : env.write_fails (w.g_dio_grp i).dio Kind.value "0" = true := by
        unfold Env.setup_ok at hs; simpa [s1, s2, s3] using hs
      have e1 := change_dir_dio_ok env (w1.g_dio_grp i) "out" w1 (w.g_dio_grp i).dio
        { w1.pins (w.g_dio_grp i).dio with direction := .output } hd s3 (by simp [Pin.store])
      refine Exists.intro ?w (And.intro ?h1 (And.intro ?h2 (And.intro ?h3 ?h4)))
      case h1 =>
        rw [setup_one, hr1, bind_ok, e1, bind_ok]
        refine change_val_dio_fail env (w1.g_dio_grp i) "0" _ (w.g_dio_grp i).dio ?_ s4
        exact hv
      case h2 => exact ⟨k1, k2, k3, hh⟩
      case h3 => exact fun _ => hv
      case h4 =>
        intro _ _
        constructor
        · show lookupFd w1.fds (w1.g_dio_grp i).value_fd
            = some ((w1.g_dio_grp i).dio, Kind.value)
          rw [hdio]; exact hv
        · show lookupFd w1.fds (w1.g_dio_grp i).direction_fd
            = some ((w1.g_dio_grp i).dio, Kind.direction)
          rw [hdio]; exact hd
    · have s3' : env.write_fails (w.g_dio_grp i).dio Kind.direction "out" = true := by
        simpa using s3
      refine Exists.intro ?v (And.intro ?g1 (And.intro ?g2 (And.intro ?g3 ?g4)))
      case g1 =>
        rw [setup_one, hr1, bind_ok,
          change_dir_dio_fail env (w1.g_dio_grp i) "out" w1 (w.g_dio_grp i).dio hd s3', bind_exit]
        exact rfl
      case g2 => exact ⟨k1, k2, k3, hh⟩
      case g3 => exact fun _ => hv
      case g4 =>
        intro _ _
        constructor
        · show lookupFd w1.fds (w1.g_dio_grp i).value_fd
            = some ((w1.g_dio_grp i).dio, Kind.value)
          rw [hdio]; exact hv
        · show lookupFd w1.fds (w1.g_dio_grp i).direction_fd
            = some ((w1.g_dio_grp i).dio, Kind.direction)
          rw [hdio]; exact hd
  · obtain ⟨w1, hr1, hk, hv⟩ := open_dio_fail env w i (w.g_dio_grp i) hopen
    refine ⟨w1, ?_, hk, hv, fun a b => absurd ⟨a, b⟩ hopen⟩
    rw [setup_one, hr1, bind_exit]

theorem setup_ok_congr (env : Env) (w w' : World) (j : ℕ)
    (h : (w'.g_dio_grp j).dio = (w.g_dio_grp j).dio) :
    env.setup_ok w' j ↔ env.setup_ok w j := by
  unfold Env.setup_ok; rw [h]

/-- The export loop changes neither the array nor the descriptor table. -/
theorem for_dio_export (env : Env) :
    ∀ (count i : ℕ) (w : World),
      ∃ w', for_dio (fun i w => .ok () (system_export env (w.g_dio_grp i).dio w)) count i w
          = .ok () w' ∧
        w'.g_dio_grp = w.g_dio_grp ∧ w'.fds = w.fds ∧ w'.handler = w.handler := by
  intro count
  induction count with
  | zero => intro i w; exact ⟨w, rfl, rfl, rfl, rfl⟩
  | succ n ih =>
    intro i w
    obtain ⟨w', hr, hg, hf, hh⟩ := ih (i + 1) (system_export env (w.g_dio_grp i).dio w)
    refine ⟨w', ?_, ?_, ?_, ?_⟩
    · rw [for_dio_succ, bind_ok]; exact hr
    · rw [hg]; unfold system_export; split_ifs <;> rfl
    · rw [hf]; unfold system_export; split_ifs <;> rfl
    · rw [hh]; unfold system_export; split_ifs <;> rfl

/-- The setup loop over the lines `i .. i+count-1` when none of their calls fails. -/
theorem for_dio_setup (env : Env) :
    ∀ (count i : ℕ) (w : World), (∀ j, i ≤ j → j < i + count → env.setup_ok w j) →
      ∃ w', for_dio (setup_one env) count i w = .ok () w' ∧
        (∀ j, i ≤ j → j < i + count → w'.line_open j) ∧
        (∀ j, (w'.g_dio_grp j).dio = (w.g_dio_grp j).dio) ∧
        (∀ j, (j < i ∨ i + count ≤ j) → w'.g_dio_grp j = w.g_dio_grp j) ∧
        (∀ fd t, lookupFd w.fds fd = some t → lookupFd w'.fds fd = some t) ∧
        w'.handler = w.handler := by
  intro count
  induction count with
  | zero =>
    intro i w _
    exact ⟨w, rfl, fun j h1 h2 => by omega, fun _ => rfl, fun _ _ => rfl, fun _ _ h => h, rfl⟩
  | succ n ih =>
    intro i w hall
    obtain ⟨w1, hr1, ho1, k1, k2, k3, k4⟩ := setup_one_ok env w i (hall i (le_refl _) (by omega))
    have hall1 : ∀ j, i + 1 ≤ j → j < i + 1 + n → env.setup_ok w1 j := fun j h1 h2 =>
      (setup_ok_congr env w w1 j (k1 j)).mpr (hall j (by omega) (by omega))
    obtain ⟨w2, hr2, ho2, m1, m2, m3, m4⟩ := ih (i + 1) w1 hall1
    refine ⟨w2, ?_, ?_, ?_, ?_, ?_, ?_⟩
    · rw [for_dio_succ, hr1, bind_ok, hr2]
    · intro j h1 h2
      by_cases hji : j = i
      · subst hji
        unfold World.line_open at ho1 ⊢
        rw [m2 j (Or.inl (by omega))]
        exact ⟨m3 _ _ ho1.1, m3 _ _ ho1.2⟩
      · exact ho2 j (by omega) (by omega)
    · intro j; rw [m1 j, k1 j]
    · intro j hj; rw [m2 j (by omega), k2 j (by omega)]
    · intro fd t h; exact m3 fd t (k3 fd t h)
    · rw [m4, k4]

/-- When `setup_dio` meets its first failing call on line `n`, the process
ends with exit status 1; the descriptors opened until then are all still
open, and the signal handler was not installed. -/
theorem setup_dio_abort (env : Env) (w : World) (n : ℕ) (hn : n < NUM_DIO)
    (hgood : ∀ j < n, env.setup_ok w j) (hbad : ¬ env.setup_ok w n) :
    ∃ w', setup_dio env w = .exit 1 w' ∧
      (∀ j < n, w'.line_open j) ∧
      (env.open_fails (w.g_dio_grp n).dio Kind.value = false →
        lookupFd w'.fds (w'.g_dio_grp n).value_fd = some ((w.g_dio_grp n).dio, Kind.value)) ∧
      (env.open_fails (w.g_dio_grp n).dio Kind.value = false →
        env.open_fails (w.g_dio_grp n).dio Kind.direction = false → w'.line_open n) ∧
      (∀ fd t, lookupFd w.fds fd = some t → lookupFd w'.fds fd = some t) ∧
      w'.handler = w.handler := by
  obtain ⟨w0, hr0, hg0, hf0, hh0⟩ := for_dio_export env NUM_DIO 0 w
  have hgood0 : ∀ j, 0 ≤ j → j < 0 + n → env.setup_ok w0 j := fun j _ h2 =>
    (setup_ok_congr env w w0 j (by rw [hg0])).mpr (hgood j (by omega))
  obtain ⟨w1, hr1, ho1, m1, m2, m3, m4⟩ := for_dio_setup env n 0 w0 hgood0
  have hdio : (w1.g_dio_grp n).dio = (w.g_dio_grp n).dio := by rw [m1 n, hg0]
  have hbad1 : ¬ env.setup_ok w1 n := fun h =>
    hbad ((setup_ok_congr env w w1 n hdio).mp h)
  obtain ⟨w2, hr2, hk2, hv2, hb2⟩ := setup_one_fail env w1 n hbad1
  have hsplit : NUM_DIO = n + ( NUM_DIO - n - 1 + 1) := by omega
  refine ⟨w2, ?_, ?_, ?_, ?_, ?_, ?_⟩
  · rw [setup_dio, hr0, bind_ok, hsplit, for_dio_add, hr1, bind_ok, for_dio_succ, Nat.zero_add,
      hr2]
    rfl
  · intro j hj
    exact World.keeps_line_open w1 w2 n j hk2 (by omega) (ho1 j (Nat.zero_le _) (by omega))
  · intro h; rw [← hdio]; exact hv2 (by rw [hdio]; exact h)
  · intro h h'; exact hb2 (by rw [hdio]; exact h) (by rw [hdio]; exact h')
  · intro fd t h
    exact hk2.2.2.1 fd t (m3 fd t (by rw [hf0]; exact h))
  · rw [hk2.2.2.2, m4, hh0]

/-- When no call fails, `setup_dio` returns with the four lines open and the
signal handler installed. -/
theorem setup_dio_ok (env : Env) (w : World) (hgood : ∀ j < NUM_DIO, env.setup_ok w j)
    (hin : env.write_fails (w.g_dio_grp recv).dio Kind.direction "in" = false) :
    ∃ w', setup_dio env w = .ok () w' ∧ (∀ j < NUM_DIO, w'.line_open j) ∧
      (∀ j, (w'.g_dio_grp j).dio = (w.g_dio_grp j).dio) ∧ w'.handler = true := by
  obtain ⟨w0, hr0, hg0, hf0, hh0⟩ := for_dio_export env NUM_DIO 0 w
  have hgood0 : ∀ j, 0 ≤ j → j < 0 + NUM_DIO → env.setup_ok w0 j := fun j _ h2 =>
    (setup_ok_congr env w w0 j (by rw [hg0])).mpr (hgood j (by omega))
  obtain ⟨w1, hr1, ho1, m1, m2, m3, m4⟩ := for_dio_setup env NUM_DIO 0 w0 hgood0
  have hdio : (w1.g_dio_grp recv).dio = (w.g_dio_grp recv).dio := by rw [m1 recv, hg0]
  have hor := ho1 recv (Nat.zero_le _) (by decide)
  have e := change_dir_dio_ok env (w1.g_dio_grp recv) "in" w1 (w1.g_dio_grp recv).dio
    { w1.pins (w1.g_dio_grp recv).dio with direction := .input } hor.2 (by rw [hdio]; exact hin)
    (by simp [Pin.store])
  refine Exists.intro ?w (And.intro ?h1 (And.intro ?h2 (And.intro ?h3 ?h4)))
  case h1 =>
    rw [setup_dio, hr0, bind_ok, hr1, bind_ok, e, bind_ok]
    exact rfl
  case h2 => intro j hj; exact ho1 j (Nat.zero_le _) (by omega)
  case h3 => intro j; show (w1.g_dio_grp j).dio = _; rw [m1 j, hg0]
  case h4 => rfl

/-- The line group reached by `setup_dio` from the start of `main` on the pins
16, 19, 17, 20 is set up, whatever the receiver will show. -/
theorem World.ready_set_up (incoming : List ReadResult) : (World.ready incoming).set_up := by
  obtain ⟨w', hr, ho, hdio, -⟩ := setup_dio_ok Env.calm (World.start 16 19 17 20 incoming)
    (fun j _ => ⟨rfl, rfl, rfl, rfl⟩) rfl
  have hw : World.ready incoming = w' := by rw [World.ready, hr]; rfl
  rw [hw]
  refine ⟨?_, ho⟩
  intro i hi j hj hij
  rw [hdio i, hdio j]
  have h4 : NUM_DIO = 4 := rfl
  rw [h4] at hi hj
  interval_cases i <;> interval_cases j <;> first | exact absurd rfl hij | simp [World.start]

/-- C9 (as stated, refuted): from the start of `main` on pins 16, 19, 17, 20,
when the open of the value file of line 1 fails, `setup_dio` ends the process
with exit status 1 while the two descriptors of line 0 (3 and 4) are still
open, and the signal handler is not installed. -/
theorem C9_setup_abort_leaves_descriptors_open :
    (setup_dio (Env.failing_open 19 .value) (World.start 16 19 17 20 [])).status = some 1 ∧
    (setup_dio (Env.failing_open 19 .value) (World.start 16 19 17 20 [])).world.fds
      = [(4, (16, Kind.direction)), (3, (16, Kind.value))] ∧
    (setup_dio (Env.failing_open 19 .value) (World.start 16 19 17 20 [])).world.line_open 0 ∧
    (setup_dio (Env.failing_open 19 .value) (World.start 16 19 17 20 [])).world.handler = false := by
  refine ⟨by decide, by decide, by decide, by decide⟩

theorem no_release_refl (w : World) : w.no_release w := ⟨[], by simp, by simp⟩

theorem no_release_trans (w1 w2 w3 : World) (h12 : w1.no_release w2) (h23 : w2.no_release w3) :
    w1.no_release w3 := by
  obtain ⟨a, ha, qa⟩ := h12
  obtain ⟨b, hb, qb⟩ := h23
  refine ⟨a ++ b, by rw [hb, ha, List.append_assoc], ?_⟩
  intro e he
  rcases List.mem_append.mp he with h | h
  · exact qa e h
  · exact qb e h

theorem no_release_log (w : World) (e : Event) (he : e.releases = false) :
    w.no_release (w.log e) := ⟨[e], rfl, by simpa using he⟩

theorem no_release_bind {α β : Type} (w : World) (o : Outcome α) (f : α → World → Outcome β)
    (ho : w.no_release o.world) (hf : ∀ (a : α) (w' : World), w'.no_release (f a w').world) :
    w.no_release (o.bind f).world := by
  cases o with
  | ok a w1 => exact no_release_trans w w1 _ ho (hf a w1)
  | exit st w1 => exact ho
  | spin w1 => exact ho

theorem no_release_sys_write (env : Env) (fd : ℤ) (data : String) (w : World) :
    w.no_release (sys_write env fd data w).2 := by
  unfold sys_write
  cases h : lookupFd w.fds fd with
  | none => exact no_release_log w _ rfl
  | some t =>
    obtain ⟨pin, k⟩ := t
    by_cases hf : env.write_fails pin k data = true
    · simp only [hf, if_true]; exact no_release_log w _ rfl
    · cases hs : (w.pins pin).store k data with
      | none => simp only [hf, hs]; exact no_release_log w _ rfl
      | some p => simp only [hf, hs]; exact ⟨[.write fd data true], rfl, by simp [Event.releases]⟩

theorem no_release_change_dir (env : Env) (g : dio_grp) (dir : String) (w : World) :
    w.no_release (change_dir_dio env g dir w).world := by
  have h1 : w.no_release (sys_lseek g.direction_fd w) := no_release_log w _ rfl
  have h2 := no_release_sys_write env g.direction_fd dir (sys_lseek g.direction_fd w)
  have h := no_release_trans _ _ _ h1 h2
  unfold change_dir_dio
  simp only []
  split
  · exact h
  · exact no_release_trans _ _ _ h (no_release_log _ _ rfl)

theorem no_release_change_val (env : Env) (g : dio_grp) (val : String) (w : World) :
    w.no_release (change_val_dio env g val w).world := by
  have h1 : w.no_release (sys_lseek g.value_fd w) := no_release_log w _ rfl
  have h2 := no_release_sys_write env g.value_fd val (sys_lseek g.value_fd w)
  have h := no_release_trans _ _ _ h1 h2
  unfold change_val_dio
  simp only []
  split
  · exact h
  · exact no_release_trans _ _ _ h (no_release_log _ _ rfl)

theorem no_release_sys_open (env : Env) (pin : ℤ) (k : Kind) (w : World) :
    w.no_release (sys_open env pin k w).2 := by
  unfold sys_open
  split
  · exact no_release_log w _ rfl
  · exact ⟨[.opened pin k (lowestFree w.fds)], rfl, by simp [Event.releases]⟩

theorem no_release_open_dio (env : Env) (i : ℕ) (g : dio_grp) (w : World) :
    w.no_release (open_dio env i g w).world := by
  have h1 := no_release_sys_open env g.dio Kind.value w
  have h1' : w.no_release
      ((sys_open env g.dio Kind.value w).2.set_value_fd i (sys_open env g.dio Kind.value w).1) :=
    h1
  have h2 := no_release_sys_open env g.dio Kind.direction
    ((sys_open env g.dio Kind.value w).2.set_value_fd i (sys_open env g.dio Kind.value w).1)
  have h12 := no_release_trans _ _ _ h1' h2
  unfold open_dio
  simp only []
  split
  · exact no_release_trans _ _ _ h1' (no_release_log _ _ rfl)
  · split
    · exact no_release_trans _ _ _ h12 (no_release_log _ _ rfl)
    · exact h12

theorem no_release_for_dio (body : ℕ → World → Outcome Unit)
    (hb : ∀ (i : ℕ) (w : World), w.no_release (body i w).world) :
    ∀ (count i : ℕ) (w : World), w.no_release (for_dio body count i w).world := by
  intro count
  induction count with
  | zero => intro i w; exact no_release_refl w
  | succ n ih =>
    intro i w
    rw [for_dio_succ]
    exact no_release_bind w _ _ (hb i w) (fun _ w' => ih (i + 1) w')

theorem no_release_setup_one (env : Env) (i : ℕ) (w : World) :
    w.no_release (setup_one env i w).world := by
  unfold setup_one
  refine no_release_bind w _ _ (no_release_open_dio env i _ w) (fun _ w' => ?_)
  refine no_release_bind w' _ _ (no_release_change_dir env _ _ w') (fun _ w'' => ?_)
  exact no_release_change_val env _ _ w''

theorem no_release_export (env : Env) (i : ℕ) (w : World) :
    w.no_release (Outcome.ok () (system_export env (w.g_dio_grp i).dio w)).world := by
  unfold system_export
  split
  · exact no_release_log w _ rfl
  · exact ⟨[.system_export (w.g_dio_grp i).dio], rfl, by simp [Event.releases]⟩

/-- Whatever happens, `setup_dio` makes no `close` and no unexport call. -/
theorem no_release_setup_dio (env : Env) (w : World) :
    w.no_release (setup_dio env w).world := by
  unfold setup_dio
  refine no_release_bind w _ _
    (no_release_for_dio _ (fun i w => no_release_export env i w) _ _ _) (fun _ w1 => ?_)
  refine no_release_bind w1 _ _
    (no_release_for_dio _ (fun i w => no_release_setup_one env i w) _ _ _) (fun _ w2 => ?_)
  refine no_release_bind w2 _ _ (no_release_change_dir env _ _ w2) (fun _ w3 => ?_)
  exact ⟨[.signal, .signal, .signal], rfl, by simp [Event.releases]⟩

/-- When the four lines are opened and driven low without a failure and the
write of `"in"` on the receiver line fails, `setup_dio` ends the process with
exit status 1; all four lines are open, nothing that was open is closed, and
the signal handler was not installed. -/
theorem setup_dio_abort_in (env : Env) (w : World) (hgood : ∀ j < NUM_DIO, env.setup_ok w j)
    (hin : env.write_fails (w.g_dio_grp recv).dio Kind.direction "in" = true) :
    ∃ w', setup_dio env w = .exit 1 w' ∧ (∀ j < NUM_DIO, w'.line_open j) ∧
      (∀ j, (w'.g_dio_grp j).dio = (w.g_dio_grp j).dio) ∧
      (∀ fd t, lookupFd w.fds fd = some t → lookupFd w'.fds fd = some t) ∧
      w'.handler = w.handler := by
  obtain ⟨w0, hr0, hg0, hf0, hh0⟩ := for_dio_export env NUM_DIO 0 w
  have hgood0 : ∀ j, 0 ≤ j → j < 0 + NUM_DIO → env.setup_ok w0 j := fun j _ h2 =>
    (setup_ok_congr env w w0 j (by rw [hg0])).mpr (hgood j (by omega))
  obtain ⟨w1, hr1, ho1, m1, m2, m3, m4⟩ := for_dio_setup env NUM_DIO 0 w0 hgood0
  have hdio : (w1.g_dio_grp recv).dio = (w.g_dio_grp recv).dio := by rw [m1 recv, hg0]
  have hor := ho1 recv (Nat.zero_le _) (by decide)
  have e := change_dir_dio_fail env (w1.g_dio_grp recv) "in" w1 (w1.g_dio_grp recv).dio
    hor.2 (by rw [hdio]; exact hin)
  refine Exists.intro ?w (And.intro ?h1 (And.intro ?h2 (And.intro ?h3 (And.intro ?h4 ?h5))))
  case h1 =>
    rw [setup_dio, hr0, bind_ok, hr1, bind_ok, e, bind_exit]
    exact rfl
  case h2 => intro j hj; exact ho1 j (Nat.zero_le _) (by omega)
  case h3 => intro j; show (w1.g_dio_grp j).dio = _; rw [m1 j, hg0]
  case h4 => intro fd t h; exact m3 fd t (by rw [hf0]; exact h)
  case h5 => show w1.handler = _; rw [m4, hh0]

/-- C9 (amended): for every `n` in 0..3, if `setup_dio` meets its first
failing call on line `n` (the open of its value or direction file, its write
of `"out"` or of `"0"`, the lines before `n` being fine; or, for the receiver
line, the final write of `"in"`), the process ends with exit status 1 at once
and gives nothing back: no `close` and no unexport call is made, both
descriptors of the lines before `n` are still open, so is the value
descriptor of line `n` when its open succeeded (and the direction descriptor
too when both opens succeeded), so is every descriptor that was open before,
and `setup_dio` has not installed the signal handler (the handler state is as
it was before the call). -/
theorem C9_setup_abort_closes_nothing (env : Env) (w : World) (n : ℕ) (hn : n < NUM_DIO)
    (hfail : env.setup_fails_at w n) :
    ∃ w', setup_dio env w = .exit 1 w' ∧
      w.no_release w' ∧
      (∀ j < n, w'.line_open j) ∧
      (env.open_fails (w.g_dio_grp n).dio Kind.value = false →
        lookupFd w'.fds (w'.g_dio_grp n).value_fd = some ((w.g_dio_grp n).dio, Kind.value)) ∧
      (env.open_fails (w.g_dio_grp n).dio Kind.value = false →
        env.open_fails (w.g_dio_grp n).dio Kind.direction = false → w'.line_open n) ∧
      (∀ fd t, lookupFd w.fds fd = some t → lookupFd w'.fds fd = some t) ∧
      w'.handler = w.handler := by
  have hq := no_release_setup_dio env w
  rcases hfail with ⟨hgood, hbad⟩ | ⟨hrecv, hgood, hin⟩
  · obtain ⟨w', r, a, b, c, d, e⟩ := setup_dio_abort env w n hn hgood hbad
    rw [r] at hq
    exact ⟨w', r, hq, a, b, c, d, e⟩
  · obtain ⟨w', r, a, b, d, e⟩ := setup_dio_abort_in env w hgood hin
    rw [r] at hq
    have hon : w'.line_open n := a n hn
    refine ⟨w', r, hq, fun j hj => a j (by omega), fun _ => ?_, fun _ _ => hon, d, e⟩
    have h := hon.1
    rw [b n] at h
    exact h

/-- C9 (amended) from the start of `main` on pins 16, 19, 17, 20, the final
write of `"in"` on the receiver line (line 3, pin 20) failing. -/
theorem C9_setup_abort_closes_nothing_witness :
    ((3 : ℕ) < NUM_DIO ∧
      (Env.failing_write 20 .direction "in").setup_fails_at (World.start 16 19 17 20 []) 3) ∧
    ∃ w', setup_dio (Env.failing_write 20 .direction "in") (World.start 16 19 17 20 [])
        = .exit 1 w' ∧
      (World.start 16 19 17 20 []).no_release w' ∧
      (∀ j < 3, w'.line_open j) ∧
      ((Env.failing_write 20 .direction "in").open_fails
          ((World.start 16 19 17 20 []).g_dio_grp 3).dio Kind.value = false →
        lookupFd w'.fds (w'.g_dio_grp 3).value_fd
          = some (((World.start 16 19 17 20 []).g_dio_grp 3).dio, Kind.value)) ∧
      ((Env.failing_write 20 .direction "in").open_fails
          ((World.start 16 19 17 20 []).g_dio_grp 3).dio Kind.value = false →
        (Env.failing_write 20 .direction "in").open_fails
          ((World.start 16 19 17 20 []).g_dio_grp 3).dio Kind.direction = false →
        w'.line_open 3) ∧
      (∀ fd t, lookupFd (World.start 16 19 17 20 []).fds fd = some t →
        lookupFd w'.fds fd = some t) ∧
      w'.handler = (World.start 16 19 17 20 []).handler :=
  ⟨by decide, C9_setup_abort_closes_nothing (Env.failing_write 20 .direction "in")
    (World.start 16 19 17 20 []) 3 (by decide) (by decide)⟩

/-! ### Teardown -/

/-- Teardown of one open line whose two writes succeed. -/
theorem release_one_ok (env : Env) (w : World) (i : ℕ) (ho : w.line_open i)
    (hw : env.release_writes_ok w i) :
    ∃ w', release_one env i w = .ok () w' ∧ w'.g_dio_grp = w.g_dio_grp ∧
      w'.pins = Function.update w.pins (w.g_dio_grp i).dio
        { exported := false, direction := .output, value := 0 } ∧
      w'.fds = (w.fds.filter (fun e => !decide (e.1 = (w.g_dio_grp i).value_fd))).filter
        (fun e => !decide (e.1 = (w.g_dio_grp i).direction_fd)) := by
  obtain ⟨h1, h2⟩ := ho
  obtain ⟨e1, e2⟩ := hw
  refine ⟨(release_one env i w).world, ?_, ?_, ?_, ?_⟩ <;>
  simp [release_one, change_dir_dio, change_val_dio, sys_lseek, sys_write, World.log, h1, h2,
      e1, e2, Pin.store, Outcome.bind, sys_close, system_unexport, Outcome.world]

/-- Descriptors of two different open lines are different. -/
theorem line_open_fds_ne (w : World) (i j : ℕ) (hi : i < NUM_DIO) (hj : j < NUM_DIO)
    (hij : i ≠ j) (hd : w.distinct_pins) (hoi : w.line_open i) (hoj : w.line_open j) :
    (w.g_dio_grp j).value_fd ≠ (w.g_dio_grp i).value_fd ∧
    (w.g_dio_grp j).value_fd ≠ (w.g_dio_grp i).direction_fd ∧
    (w.g_dio_grp j).direction_fd ≠ (w.g_dio_grp i).value_fd ∧
    (w.g_dio_grp j).direction_fd ≠ (w.g_dio_grp i).direction_fd := by
  have hne := hd i hi j hj hij
  obtain ⟨a1, a2⟩ := hoi
  obtain ⟨b1, b2⟩ := hoj
  refine ⟨?_, ?_, ?_, ?_⟩ <;> intro h
  · rw [h, a1] at b1; simp at b1; exact hne b1
  · rw [h, a2] at b1; simp at b1
  · rw [h, a1] at b2; simp at b2
  · rw [h, a2] at b2; simp at b2; exact hne b2

/-- What the teardown of one open line leaves of the other lines. -/
theorem release_one_frame (env : Env) (w : World) (i : ℕ) (hi : i < NUM_DIO)
    (hd : w.distinct_pins) (ho : w.line_open i) (hw : env.release_writes_ok w i) :
    ∃ w', release_one env i w = .ok () w' ∧ w'.g_dio_grp = w.g_dio_grp ∧
      w'.line_released i ∧
      (∀ j < NUM_DIO, j ≠ i → w'.pins (w.g_dio_grp j).dio = w.pins (w.g_dio_grp j).dio) ∧
      (∀ fd, lookupFd w.fds fd = none → lookupFd w'.fds fd = none) ∧
      (∀ j < NUM_DIO, j ≠ i → w.line_open j → w'.line_open j) := by
  obtain ⟨w', hr, hg, hp, hf⟩ := release_one_ok env w i ho hw
  have hlook : ∀ fd, lookupFd w'.fds fd
      = if fd = (w.g_dio_grp i).direction_fd then none
        else if fd = (w.g_dio_grp i).value_fd then none else lookupFd w.fds fd := by
    intro fd; rw [hf, lookupFd_filter, lookupFd_filter]
  refine ⟨w', hr, hg, ?_, ?_, ?_, ?_⟩
  · refine ⟨?_, ?_, ?_⟩
    · rw [hg, hp]; simp
    · rw [hg, hlook]; simp
    · rw [hg, hlook]; simp
  · intro j hj hji
    rw [hp, Function.update_noteq (hd j hj i hi hji)]
  · intro fd h
    rw [hlook, h]; simp
  · intro j hj hji hoj
    obtain ⟨n1, n2, n3, n4⟩ := line_open_fds_ne w i j hi hj (Ne.symm hji) hd ho hoj
    refine ⟨?_, ?_⟩
    · rw [hg, hlook, if_neg n2, if_neg n1]; exact hoj.1
    · rw [hg, hlook, if_neg n4, if_neg n3]; exact hoj.2

/-- Teardown of the lines `i .. i+count-1`, all open and all writes succeeding. -/
theorem for_dio_release (env : Env) :
    ∀ (count i : ℕ) (w : World), i + count ≤ NUM_DIO → w.distinct_pins →
      (∀ j, i ≤ j → j < i + count → w.line_open j ∧ env.release_writes_ok w j) →
      ∃ w', for_dio (release_one env) count i w = .ok () w' ∧ w'.g_dio_grp = w.g_dio_grp ∧
        (∀ j, i ≤ j → j < i + count → w'.line_released j) ∧
        (∀ j < NUM_DIO, (j < i ∨ i + count ≤ j) →
          w'.pins (w.g_dio_grp j).dio = w.pins (w.g_dio_grp j).dio) ∧
        (∀ fd, lookupFd w.fds fd = none → lookupFd w'.fds fd = none) ∧
        (∀ j < NUM_DIO, (j < i ∨ i + count ≤ j) → w.line_open j → w'.line_open j) := by
  intro count
  induction count with
  | zero =>
    intro i w _ _ _
    exact ⟨w, rfl, rfl, fun j h1 h2 => by omega, fun _ _ _ => rfl, fun _ h => h,
      fun _ _ _ h => h⟩
  | succ n ih =>
    intro i w hle hd hall
    have hi : i < NUM_DIO := by omega
    obtain ⟨w1, hr1, hg1, hrel1, hp1, hn1, ho1⟩ :=
      release_one_frame env w i hi hd (hall i (le_refl _) (by omega)).1
        (hall i (le_refl _) (by omega)).2
    have hd1 : w1.distinct_pins := by
      intro a ha b hb hab; rw [hg1]; exact hd a ha b hb hab
    have hall1 : ∀ j, i + 1 ≤ j → j < i + 1 + n →
        w1.line_open j ∧ env.release_writes_ok w1 j := by
      intro j h1 h2
      obtain ⟨x1, x2⟩ := hall j (by omega) (by omega)
      refine ⟨ho1 j (by omega) (by omega) x1, ?_⟩
      unfold Env.release_writes_ok at x2 ⊢
      rw [hg1]; exact x2
    obtain ⟨w2, hr2, hg2, hrel2, hp2, hn2, ho2⟩ := ih (i + 1) w1 (by omega) hd1 hall1
    refine ⟨w2, ?_, hg2.trans hg1, ?_, ?_, ?_, ?_⟩
    · rw [for_dio_succ, hr1, bind_ok, hr2]
    · intro j h1 h2
      by_cases hji : j = i
      · subst hji
        obtain ⟨r1, r2, r3⟩ := hrel1
        refine ⟨?_, ?_, ?_⟩
        · rw [hg2]
          have := hp2 j hi (Or.inl (by omega))
          rw [hg1] at this ⊢
          rw [this]; rw [hg1] at r1; exact r1
        · rw [hg2]; exact hn2 _ r2
        · rw [hg2]; exact hn2 _ r3
      · exact hrel2 j (by omega) (by omega)
    · intro j hj hout
      have a := hp2 j hj (by omega)
      rw [hg1] at a
      rw [a]
      exact hp1 j hj (by omega)
    · intro fd h; exact hn2 fd (hn1 fd h)
    · intro j hj hout hoj
      exact ho2 j hj (by omega) (ho1 j hj (by omega) hoj)

/-- Teardown of an open line one of whose two writes is made to fail: the
process ends with status 1, no descriptor is closed and the pin stays exported
as it was. -/
theorem release_one_write_fails (env : Env) (w : World) (i : ℕ) (ho : w.line_open i)
    (hfail : ¬ env.release_writes_ok w i) :
    ∃ w', release_one env i w = .exit 1 w' ∧ w'.g_dio_grp = w.g_dio_grp ∧ w'.fds = w.fds ∧
      (∀ pin, pin ≠ (w.g_dio_grp i).dio → w'.pins pin = w.pins pin) ∧
      (w'.pins (w.g_dio_grp i).dio).exported = (w.pins (w.g_dio_grp i).dio).exported := by
  obtain ⟨h1, h2⟩ := ho
  unfold Env.release_writes_ok at hfail
  by_cases e1 : env.write_fails (w.g_dio_grp i).dio Kind.direction "out" = false
  · have e2 : env.write_fails (w.g_dio_grp i).dio Kind.value "0" = true := by
      simpa [e1] using hfail
    refine ⟨(release_one env i w).world, ?_, ?_, ?_, ?_, ?_⟩
    · simp [release_one, change_dir_dio, change_val_dio, sys_lseek, sys_write, World.log, h1, h2,
        e1, e2, Pin.store, Outcome.bind, perror, Outcome.world]
    · simp [release_one, change_dir_dio, change_val_dio, sys_lseek, sys_write, World.log, h1, h2,
        e1, e2, Pin.store, Outcome.bind, perror, Outcome.world]
    · simp [release_one, change_dir_dio, change_val_dio, sys_lseek, sys_write, World.log, h1, h2,
        e1, e2, Pin.store, Outcome.bind, perror, Outcome.world]
    · intro pin hpin
      simp [release_one, change_dir_dio, change_val_dio, sys_lseek, sys_write, World.log, h1, h2,
        e1, e2, Pin.store, Outcome.bind, perror, Outcome.world, Function.update_noteq hpin]
    · simp [release_one, change_dir_dio, change_val_dio, sys_lseek, sys_write, World.log, h1, h2,
        e1, e2, Pin.store, Outcome.bind, perror, Outcome.world]
  · have e1' : env.write_fails (w.g_dio_grp i).dio Kind.direction "out" = true := by
      simpa using e1
    refine ⟨(release_one env i w).world, ?_, ?_, ?_, ?_, ?_⟩ <;>
    simp [release_one, change_dir_dio, sys_lseek, sys_write, World.log, h2,
        e1', Outcome.bind, perror, Outcome.world]

/-- Teardown of a line whose direction descriptor is closed: the direction
write fails, the process ends with status 1 and nothing changes but the history. -/
theorem release_one_closed (env : Env) (w : World) (i : ℕ)
    (hc : lookupFd w.fds (w.g_dio_grp i).direction_fd = none) :
    release_one env i w = .exit 1
      { w with trace := w.trace ++ [.lseek (w.g_dio_grp i).direction_fd,
          .write (w.g_dio_grp i).direction_fd "out" false, .perror "write direction"] } := by
  simp [release_one, change_dir_dio, sys_lseek, sys_write, World.log, hc, Outcome.bind, perror]

/-- C6 (as stated, refuted): on the line group set up on pins 16, 19, 17, 20,
with no call made to fail, the first `release_all_dio(0)` returns and the second
one does not return: the process ends with exit status 1. -/
theorem C6_second_release_exits :
    (World.ready []).set_up ∧
    (release_all_dio Env.calm 0 (World.ready [])).returned = true ∧
    (release_all_dio Env.calm 0
      (release_all_dio Env.calm 0 (World.ready [])).world).returned = false ∧
    (release_all_dio Env.calm 0
      (release_all_dio Env.calm 0 (World.ready [])).world).status = some 1 := by
  refine ⟨World.ready_set_up [], by decide, by decide, by decide⟩

/-- C6 (amended): on a set-up line group whose teardown writes succeed, one
`release_all_dio(0)` returns with all four lines Output, value 0, both
descriptors closed, unexported; a second `release_all_dio(0)` right after it
leaves the pins, the descriptor table and the array as they are, but does not
return: its first call, the direction write of line 0, fails on the closed
descriptor and the process ends with exit status 1. -/
theorem C6_release_twice (env : Env) (w : World) (hset : w.set_up)
    (hok : ∀ i < NUM_DIO, env.release_writes_ok w i) :
    ∃ w1, release_all_dio env 0 w = .ok () w1 ∧ (∀ i < NUM_DIO, w1.line_released i) ∧
      ∃ w2, release_all_dio env 0 w1 = .exit 1 w2 ∧
        w2.pins = w1.pins ∧ w2.fds = w1.fds ∧ w2.g_dio_grp = w1.g_dio_grp ∧
        w2.trace = w1.trace ++ [.lseek (w1.g_dio_grp 0).direction_fd,
          .write (w1.g_dio_grp 0).direction_fd "out" false, .perror "write direction"] := by
  obtain ⟨hd, hopen⟩ := hset
  obtain ⟨w1, hr, hg, hrel, -, -, -⟩ := for_dio_release env NUM_DIO 0 w (by simp) hd
    (fun j _ hj => ⟨hopen j (by omega), hok j (by omega)⟩)
  have hrel' : ∀ i < NUM_DIO, w1.line_released i := fun i hi => hrel i (Nat.zero_le _) (by omega)
  refine ⟨w1, ?_, hrel', ?_⟩
  · simp [release_all_dio, hr, bind_ok]
  · have hc := (hrel' 0 (by decide)).2.2
    refine ⟨{ w1 with trace := w1.trace ++ [.lseek (w1.g_dio_grp 0).direction_fd,
          .write (w1.g_dio_grp 0).direction_fd "out" false, .perror "write direction"] },
      ?_, rfl, rfl, rfl, rfl⟩
    have h4 : NUM_DIO = 3 + 1 := rfl
    rw [release_all_dio, h4, for_dio_succ, release_one_closed env w1 0 hc]
    rfl

/-- C6 (amended) on the line group set up on pins 16, 19, 17, 20, no call
made to fail. -/
theorem C6_release_twice_witness :
    ((World.ready []).set_up ∧ ∀ i < NUM_DIO, Env.calm.release_writes_ok (World.ready []) i) ∧
    ∃ w1, release_all_dio Env.calm 0 (World.ready []) = .ok () w1 ∧
      (∀ i < NUM_DIO, w1.line_released i) ∧
      ∃ w2, release_all_dio Env.calm 0 w1 = .exit 1 w2 ∧
        w2.pins = w1.pins ∧ w2.fds = w1.fds ∧ w2.g_dio_grp = w1.g_dio_grp ∧
        w2.trace = w1.trace ++ [.lseek (w1.g_dio_grp 0).direction_fd,
          .write (w1.g_dio_grp 0).direction_fd "out" false, .perror "write direction"] :=
  ⟨⟨World.ready_set_up [], by decide⟩,
    C6_release_twice Env.calm (World.ready []) (World.ready_set_up []) (by decide)⟩

/-- C7 (as stated, refuted): on the line group set up on pins 16, 19, 17, 20,
when the direction write of line 0 fails, `release_all_dio(0)` ends the process
with exit status 1 and the last line (the receiver, pin 20) is left as it was:
an input that is still exported. -/
theorem C7_failed_write_aborts_teardown :
    (World.ready []).set_up ∧
    (release_all_dio (Env.failing_write 16 .direction "out") 0 (World.ready [])).status = some 1 ∧
    ((release_all_dio (Env.failing_write 16 .direction "out") 0 (World.ready [])).world.pins 20)
      = { exported := true, direction := .input, value := 0 } := by
  refine ⟨World.ready_set_up [], by decide, by decide⟩

/-- C7 (amended): on a set-up line group, if the teardown writes of the lines
before `i` succeed and the direction write or the value write of line `i`
fails, `release_all_dio` ends the process with exit status 1 at that write: the
lines before `i` are Output, value 0, closed and unexported, line `i` keeps both
descriptors open and stays exported as it was, and every later line is left
untouched (same pin state, descriptors still open). -/
theorem C7_release_stops_at_failed_write (env : Env) (sig : ℤ) (w : World) (i : ℕ)
    (hi : i < NUM_DIO) (hset : w.set_up) (hbefore : ∀ j < i, env.release_writes_ok w j)
    (hfail : ¬ env.release_writes_ok w i) :
    ∃ w', release_all_dio env sig w = .exit 1 w' ∧ w'.g_dio_grp = w.g_dio_grp ∧
      (∀ j < i, w'.line_released j) ∧
      (w'.line_open i ∧
        (w'.pins (w.g_dio_grp i).dio).exported = (w.pins (w.g_dio_grp i).dio).exported) ∧
      (∀ k, i < k → k < NUM_DIO →
        w'.line_open k ∧ w'.pins (w.g_dio_grp k).dio = w.pins (w.g_dio_grp k).dio) := by
  obtain ⟨hd, hopen⟩ := hset
  obtain ⟨w1, hr1, hg1, hrel1, hp1, hn1, ho1⟩ := for_dio_release env i 0 w (by omega) hd
    (fun j _ hj => ⟨hopen j (by omega), hbefore j (by omega)⟩)
  have hoi : w1.line_open i := ho1 i hi (Or.inr (by omega)) (hopen i hi)
  have hfail1 : ¬ env.release_writes_ok w1 i := by
    unfold Env.release_writes_ok at hfail ⊢; rw [hg1]; exact hfail
  obtain ⟨w2, hr2, hg2, hf2, hp2, he2⟩ := release_one_write_fails env w1 i hoi hfail1
  have hsplit : NUM_DIO = i + ( NUM_DIO - i - 1 + 1) := by omega
  refine ⟨w2, ?_, hg2.trans hg1, ?_, ⟨?_, ?_⟩, ?_⟩
  · rw [release_all_dio, hsplit, for_dio_add, hr1, bind_ok, for_dio_succ, Nat.zero_add, hr2]
    rfl
  · intro j hj
    obtain ⟨r1, r2, r3⟩ := hrel1 j (Nat.zero_le _) (by omega)
    have hne : (w1.g_dio_grp j).dio ≠ (w1.g_dio_grp i).dio := by
      rw [hg1]; exact hd j (by omega) i hi (by omega)
    refine ⟨?_, ?_, ?_⟩
    · rw [hg2, hp2 _ hne]; exact r1
    · rw [hg2, hf2]; exact r2
    · rw [hg2, hf2]; exact r3
  · refine ⟨?_, ?_⟩
    · rw [hg2, hf2]; exact hoi.1
    · rw [hg2, hf2]; exact hoi.2
  · rw [hg1] at he2
    rw [he2, hp1 i hi (Or.inr (by omega))]
  · intro k hik hk
    have hok1 : w1.line_open k := ho1 k hk (Or.inr (by omega)) (hopen k hk)
    have hne : (w.g_dio_grp k).dio ≠ (w1.g_dio_grp i).dio := by
      rw [hg1]; exact hd k hk i hi (by omega)
    refine ⟨⟨?_, ?_⟩, ?_⟩
    · rw [hg2, hf2]; exact hok1.1
    · rw [hg2, hf2]; exact hok1.2
    · rw [hp2 _ hne]; exact hp1 k hk (Or.inr (by omega))

/-- C7 (amended) on the line group set up on pins 16, 19, 17, 20, the value
write of line 2 (pin 17) failing. -/
theorem C7_release_stops_at_failed_write_witness :
    ((2 : ℕ) < NUM_DIO ∧ (World.ready []).set_up ∧
      (∀ j < 2, (Env.failing_write 17 .value "0").release_writes_ok (World.ready []) j) ∧
      ¬ (Env.failing_write 17 .value "0").release_writes_ok (World.ready []) 2) ∧
    ∃ w', release_all_dio (Env.failing_write 17 .value "0") 0 (World.ready []) = .exit 1 w' ∧
      w'.g_dio_grp = (World.ready []).g_dio_grp ∧
      (∀ j < 2, w'.line_released j) ∧
      (w'.line_open 2 ∧
        (w'.pins ((World.ready []).g_dio_grp 2).dio).exported
          = ((World.ready []).pins ((World.ready []).g_dio_grp 2).dio).exported) ∧
      (∀ k, 2 < k → k < NUM_DIO →
        w'.line_open k ∧ w'.pins ((World.ready []).g_dio_grp k).dio
          = (World.ready []).pins ((World.ready []).g_dio_grp k).dio) :=
  ⟨⟨by decide, World.ready_set_up [], by decide, by decide⟩,
    C7_release_stops_at_failed_write (Env.failing_write 17 .value "0") 0
      (World.ready []) 2 (by decide) (World.ready_set_up []) (by decide) (by decide)⟩

/-! ### The probe loop -/

theorem get_val_dio_run (g : dio_grp) (w : World) (r : ReadResult) (rest : List ReadResult)
    (hin : w.incoming = r :: rest) (hfd : (lookupFd w.fds g.value_fd).isSome = true) :
    get_val_dio g w = some (r.level,
      { w with incoming := rest, trace := w.trace ++ poll_events g.value_fd r }) := by
  cases r <;>
  simp [get_val_dio, sys_lseek, sys_read, World.log, hin, hfd, ReadResult.level, poll_events, perror]

/-- A spin loop over reads that keep it spinning, ended by one that does not. -/
theorem spin_while_run (cond : Char → Bool) :
    ∀ (pre : List ReadResult) (w : World) (fuel : ℕ) (r : ReadResult) (rest : List ReadResult),
      (∀ q ∈ pre, cond q.level = true) → cond r.level = false →
      w.incoming = pre ++ r :: rest → pre.length < fuel →
      (lookupFd w.fds (w.g_dio_grp recv).value_fd).isSome = true →
      spin_while cond fuel w = .ok ()
        { w with incoming := rest,
                 trace := w.trace ++ polls (w.g_dio_grp recv).value_fd (pre ++ [r]) } := by
  intro pre
  induction pre with
  | nil =>
    intro w fuel r rest _ hr hin hfuel hfd
    obtain ⟨f, rfl⟩ : ∃ f, fuel = f + 1 := ⟨fuel - 1, by simp at hfuel; omega⟩
    simp [spin_while, get_val_dio_run _ w r rest hin hfd, hr, polls]
  | cons q pre ih =>
    intro w fuel r rest hpre hr hin hfuel hfd
    obtain ⟨f, rfl⟩ : ∃ f, fuel = f + 1 := ⟨fuel - 1, by simp at hfuel; omega⟩
    have hq : cond q.level = true := hpre q (List.mem_cons_self _ _)
    have hin' : w.incoming = q :: (pre ++ r :: rest) := by simpa using hin
    simp only [spin_while, get_val_dio_run _ w q _ hin' hfd, hq, if_true]
    have step := ih
      { w with incoming := pre ++ r :: rest,
               trace := w.trace ++ poll_events (w.g_dio_grp recv).value_fd q }
      f r rest (fun a ha => hpre a (List.mem_cons_of_mem _ ha)) hr rfl
      (by simp at hfuel ⊢; omega) hfd
    rw [step]
    simp [polls, List.append_assoc]

/-- One probe cycle on reads that fit it, the emitter writes succeeding: it
returns the updated statistics, its calls are `cycle_events`, and the
emitter pin ends at 0. -/
theorem probe_cycle_run (env : Env) (udelay : ℕ) (alpha : ℚ) (st : Stats) (w : World)
    (c : CycleReads) (rest : List ReadResult) (pin : ℤ)
    (hv : c.fits) (hin : w.incoming = c.reads ++ rest)
    (hrecv : (lookupFd w.fds (w.g_dio_grp recv).value_fd).isSome = true)
    (hemit : lookupFd w.fds (w.g_dio_grp emit).value_fd = some (pin, Kind.value))
    (h1 : env.write_fails pin Kind.value "1" = false)
    (h0 : env.write_fails pin Kind.value "0" = false) :
    ∃ w', probe_cycle env udelay alpha st w
        = .ok (stats_update alpha st (diff_ts (env.clock w.nclock) (env.clock (w.nclock + 1)))) w' ∧
      w'.g_dio_grp = w.g_dio_grp ∧ w'.fds = w.fds ∧ w'.incoming = rest ∧
      w'.nclock = w.nclock + 2 ∧ (w'.pins pin).value = 0 ∧
      w'.trace = w.trace ++ cycle_events (w.g_dio_grp recv).value_fd (w.g_dio_grp emit).value_fd
        (env.clock w.nclock) (env.clock (w.nclock + 1)) udelay c := by
  obtain ⟨v1, v2, v3, v4⟩ := hv
  have c1 : (fun ch : Char => decide (ch = '0')) c.x.level = false := by simpa using v2
  have c2 : (fun ch : Char => decide (ch ≠ '0')) c.y.level = false := by simpa using v4
  have s1 := spin_while_run (fun ch => decide (ch = '0')) c.pre w w.incoming.length c.x
    (c.mid ++ [c.y] ++ rest) (by simpa using v1) c1
    (by rw [hin]; simp [CycleReads.reads]) (by rw [hin]; simp [CycleReads.reads]) hrecv
  unfold probe_cycle
  rw [s1, bind_ok]
  simp only [sys_clock_gettime]
  rw [change_val_dio_ok env _ "1" _ pin { w.pins pin with value := 1 }, bind_ok]
  rotate_left
  · exact hemit
  · exact h1
  · simp [Pin.store]
  rw [spin_while_run (fun ch => decide (ch ≠ '0')) c.mid _ _ c.y rest, bind_ok]
  rotate_left
  · simpa using v3
  · exact c2
  · simp
  · simp
  · exact hrecv
  rw [change_val_dio_ok env _ "0" _ pin { w.pins pin with value := 0 }, bind_ok]
  rotate_left
  · exact hemit
  · exact h0
  · simp [Pin.store]
  refine ⟨_, rfl, rfl, rfl, rfl, rfl, ?_, ?_⟩
  · simp [World.log]
  · simp [cycle_events, World.log, List.append_assoc]

theorem emit_states_append (efd : ℤ) (a b : List Event) :
    ∀ s, emit_states efd s (a ++ b)
      = emit_states efd s a ++ emit_states efd (emit_final efd s a) b := by
  induction a with
  | nil => intro s; rfl
  | cons e a ih => intro s; simp [emit_states, emit_final, ih]

theorem emit_final_append (efd : ℤ) (a b : List Event) (s : EmitState) :
    emit_final efd s (a ++ b) = emit_final efd (emit_final efd s a) b := by
  simp [emit_final, List.foldl_append]

theorem emit_polls (efd rfd : ℤ) (s : EmitState) (rs : List ReadResult) :
    emit_final efd s (polls rfd rs) = s ∧ ∀ t ∈ emit_states efd s (polls rfd rs), t = s := by
  induction rs with
  | nil => simp [polls, emit_final, emit_states]
  | cons r rs ih =>
    obtain ⟨i1, i2⟩ := ih
    have h1 : emit_final efd s (poll_events rfd r) = s := by
      cases r <;> simp [poll_events, emit_final, emit_step]
    have h2 : ∀ t ∈ emit_states efd s (poll_events rfd r), t = s := by
      cases r <;> simp [poll_events, emit_states, emit_step]
    refine ⟨?_, ?_⟩
    · rw [polls, emit_final_append, h1, i1]
    · intro t ht
      rw [polls, emit_states_append, h1] at ht
      rcases List.mem_append.mp ht with h | h
      · exact h2 t h
      · exact i2 t h

/-- One cycle, started with the emitter at 0 outside a timing window: the
emitter is at 1 only in the phases `timing` and `closing`, and the cycle ends
with the emitter at 0 outside a window again. -/
theorem emit_cycle (rfd efd : ℤ) (s e : timespec) (udelay : ℕ) (c : CycleReads) :
    emit_final efd ⟨0, .idle⟩ (cycle_events rfd efd s e udelay c) = ⟨0, .idle⟩ ∧
    ∀ t ∈ emit_states efd ⟨0, .idle⟩ (cycle_events rfd efd s e udelay c),
      t.level = 1 → t.phase = .timing ∨ t.phase = .closing := by
  have p1 := emit_polls efd rfd ⟨0, .idle⟩ (c.pre ++ [c.x])
  have p2 := emit_polls efd rfd ⟨1, .timing⟩ (c.mid ++ [c.y])
  have a1 : emit_final efd ⟨0, .idle⟩ [.clock_gettime .s_ts s, .lseek efd, .write efd "1" true]
      = ⟨1, .timing⟩ := by simp [emit_final, emit_step]
  have a2 : emit_final efd ⟨1, .timing⟩
      [.clock_gettime .e_ts e, .lseek efd, .write efd "0" true, .usleep udelay]
      = ⟨0, .idle⟩ := by simp [emit_final, emit_step]
  refine ⟨?_, ?_⟩
  · simp only [cycle_events, emit_final_append, p1.1, a1, p2.1, a2]
  · intro t ht
    simp only [cycle_events, emit_states_append, emit_final_append, p1.1, a1, p2.1,
      List.mem_append] at ht
    rcases ht with ((h | h) | h) | h
    · rw [p1.2 t h]; simp
    · simp [emit_states, emit_step] at h
      rcases h with rfl | rfl | rfl <;> simp
    · rw [p2.2 t h]; simp
    · simp [emit_states, emit_step] at h
      rcases h with rfl | rfl | rfl | rfl <;> simp

/-- Successive cycles: the same, after every cycle. -/
theorem emit_loop (env : Env) (rfd efd : ℤ) (udelay : ℕ) :
    ∀ (cycles : List CycleReads) (n : ℕ),
      emit_final efd ⟨0, .idle⟩ (loop_events env rfd efd udelay n cycles) = ⟨0, .idle⟩ ∧
      ∀ t ∈ emit_states efd ⟨0, .idle⟩ (loop_events env rfd efd udelay n cycles),
        t.level = 1 → t.phase = .timing ∨ t.phase = .closing := by
  intro cycles
  induction cycles with
  | nil => intro n; simp [loop_events, emit_final, emit_states]
  | cons c cs ih =>
    intro n
    obtain ⟨c1, c2⟩ := emit_cycle rfd efd (env.clock n) (env.clock (n + 1)) udelay c
    obtain ⟨i1, i2⟩ := ih (n + 2)
    refine ⟨?_, ?_⟩
    · rw [loop_events, emit_final_append, c1, i1]
    · intro t ht
      rw [loop_events, emit_states_append, c1] at ht
      rcases List.mem_append.mp ht with h | h
      · exact c2 t h
      · exact i2 t h

theorem stats_from_loop_cons (env : Env) (alpha : ℚ) (st : Stats) (n k : ℕ) :
    stats_from alpha st (loop_samples env n (k + 1))
      = stats_from alpha (stats_update alpha st (diff_ts (env.clock n) (env.clock (n + 1))))
          (loop_samples env (n + 2) k) := rfl

/-- The loop on reads that fit its cycles, the emitter writes succeeding. -/
theorem probe_loop_run (env : Env) (udelay : ℕ) (alpha : ℚ) (pin : ℤ)
    (h1 : env.write_fails pin Kind.value "1" = false)
    (h0 : env.write_fails pin Kind.value "0" = false) :
    ∀ (cycles : List CycleReads) (st : Stats) (w : World) (rest : List ReadResult),
      (∀ c ∈ cycles, c.fits) → w.incoming = all_reads cycles ++ rest →
      (lookupFd w.fds (w.g_dio_grp recv).value_fd).isSome = true →
      lookupFd w.fds (w.g_dio_grp emit).value_fd = some (pin, Kind.value) →
      ∃ w', probe_loop env udelay alpha cycles.length st w
          = .ok (stats_from alpha st (loop_samples env w.nclock cycles.length)) w' ∧
        w'.g_dio_grp = w.g_dio_grp ∧ w'.fds = w.fds ∧ w'.incoming = rest ∧
        ((w.pins pin).value = 0 → (w'.pins pin).value = 0) ∧
        w'.trace = w.trace ++ loop_events env (w.g_dio_grp recv).value_fd
          (w.g_dio_grp emit).value_fd udelay w.nclock cycles := by
  intro cycles
  induction cycles with
  | nil =>
    intro st w rest _ hin _ _
    exact ⟨w, rfl, rfl, rfl, by simpa [all_reads] using hin, fun hp => hp,
      by simp [loop_events]⟩
  | cons c cs ih =>
    intro st w rest hv hin hrecv hemit
    obtain ⟨w1, r1, g1, f1, i1, n1, p1, t1⟩ := probe_cycle_run env udelay alpha st w c
      (all_reads cs ++ rest) pin (hv c (List.mem_cons_self _ _))
      (by rw [hin]; simp [all_reads]) hrecv hemit h1 h0
    obtain ⟨w2, r2, g2, f2, i2, p2, t2⟩ := ih
      (stats_update alpha st (diff_ts (env.clock w.nclock) (env.clock (w.nclock + 1)))) w1 rest
      (fun c' hc' => hv c' (List.mem_cons_of_mem _ hc')) i1
      (by rw [f1, g1]; exact hrecv) (by rw [f1, g1]; exact hemit)
    refine ⟨w2, ?_, g2.trans g1, f2.trans f1, i2, fun _ => p2 p1, ?_⟩
    · rw [List.length_cons, probe_loop, r1, bind_ok, r2, n1, stats_from_loop_cons]
    · rw [t2, t1, g1, n1, loop_events, List.append_assoc]

/-- C8 (the code at the failing input): on the line group set up on pins 16,
19, 17, 20 (value descriptor 9 for the receiver, 5 for the emitter), the
receiver first reads `'1'` and the next read fails. The failed read is
reported by `perror`, `get_val_dio` returns `'0'`, the second spin-wait ends
on it, the end timestamp is captured right after it and the cycle returns a
sample (the `double` nearest to 0.001 s with the calm clock) that enters the
statistics. -/
theorem C8_failed_read_ends_second_wait :
    ((World.ready [.byte '1', .error]).g_dio_grp recv).value_fd = 9 ∧
    ((World.ready [.byte '1', .error]).g_dio_grp emit).value_fd = 5 ∧
    (get_val_dio ((World.ready [.error]).g_dio_grp recv) (World.ready [.error])).map Prod.fst
      = some '0' ∧
    ∃ w', probe_cycle Env.calm 500000 (1 / 10) Stats.init (World.ready [.byte '1', .error])
        = .ok (stats_update (1 / 10) Stats.init (1152921504606847 / 2 ^ 60)) w' ∧
      w'.incoming = [] ∧
      w'.trace = (World.ready [.byte '1', .error]).trace ++
        [.lseek 9, .read 9 (.byte '1'),
         .clock_gettime .s_ts ⟨0, 0⟩, .lseek 5, .write 5 "1" true,
         .lseek 9, .read 9 .error, .perror "read value",
         .clock_gettime .e_ts ⟨0, 1000000⟩, .lseek 5, .write 5 "0" true,
         .usleep 500000] := by
  refine ⟨by decide, by decide, by decide, ?_⟩
  obtain ⟨w', r, -, -, i, -, -, t⟩ := probe_cycle_run Env.calm 500000 (1 / 10) Stats.init
    (World.ready [.byte '1', .error]) ⟨[], .byte '1', [], .error⟩ [] 19
    (by decide) (by decide) (by decide) (by decide) (by decide) (by decide)
  have hd : diff_ts (Env.calm.clock (World.ready [.byte '1', .error]).nclock)
      (Env.calm.clock ((World.ready [.byte '1', .error]).nclock + 1))
      = 1152921504606847 / 2 ^ 60 := by
    have hn : (World.ready [.byte '1', .error]).nclock = 0 := by decide
    have c0 : Env.calm.clock 0 = ⟨0, 0⟩ := by decide
    have c1 : Env.calm.clock (0 + 1) = ⟨0, 1000000⟩ := by decide
    rw [hn, c0, c1]
    exact diff_ts_calm_first
  rw [hd] at r
  refine ⟨w', r, i, ?_⟩
  rw [t]
  have e1 : ((World.ready [.byte '1', .error]).g_dio_grp recv).value_fd = 9 := by decide
  have e2 : ((World.ready [.byte '1', .error]).g_dio_grp emit).value_fd = 5 := by decide
  have hn : (World.ready [.byte '1', .error]).nclock = 0 := by decide
  rw [e1, e2, hn]
  rfl

theorem CycleReads.clean_fits (c : CycleReads) (h : c.clean) : c.fits := by
  obtain ⟨h1, h2, h3, h4⟩ := h
  refine ⟨h1, ?_, ?_, ?_⟩
  · rw [h2]; decide
  · intro r hr; rw [h3 r hr]; decide
  · rw [h4]; rfl

theorem same_input_bind {α β : Type} (w : World) (o : Outcome α) (f : α → World → Outcome β)
    (ho : w.same_input o.world) (hf : ∀ (a : α) (w' : World), w'.same_input (f a w').world) :
    w.same_input (o.bind f).world := by
  cases o with
  | ok a w1 =>
    have h := hf a w1
    exact ⟨h.1.trans ho.1, h.2.trans ho.2⟩
  | exit st w1 => exact ho
  | spin w1 => exact ho

theorem sys_write_frame (env : Env) (fd : ℤ) (data : String) (w : World) :
    (sys_write env fd data w).2.incoming = w.incoming ∧
    (sys_write env fd data w).2.nclock = w.nclock := by
  unfold sys_write
  cases h : lookupFd w.fds fd with
  | none => simp [World.log]
  | some t =>
    obtain ⟨pin, k⟩ := t
    by_cases hf : env.write_fails pin k data = true
    · simp [hf, World.log]
    · cases hs : (w.pins pin).store k data <;> simp [hf, hs, World.log]

theorem same_input_change_dir (env : Env) (g : dio_grp) (dir : String) (w : World) :
    w.same_input (change_dir_dio env g dir w).world := by
  have h := sys_write_frame env g.direction_fd dir (sys_lseek g.direction_fd w)
  unfold change_dir_dio
  simp only []
  split <;> exact h

theorem same_input_change_val (env : Env) (g : dio_grp) (val : String) (w : World) :
    w.same_input (change_val_dio env g val w).world := by
  have h := sys_write_frame env g.value_fd val (sys_lseek g.value_fd w)
  unfold change_val_dio
  simp only []
  split <;> exact h

theorem sys_open_frame (env : Env) (pin : ℤ) (k : Kind) (w : World) :
    (sys_open env pin k w).2.incoming = w.incoming ∧
    (sys_open env pin k w).2.nclock = w.nclock := by
  unfold sys_open
  split <;> simp [World.log]

theorem same_input_open_dio (env : Env) (i : ℕ) (g : dio_grp) (w : World) :
    w.same_input (open_dio env i g w).world := by
  have h1 := sys_open_frame env g.dio Kind.value w
  have h2 := sys_open_frame env g.dio Kind.direction
    ((sys_open env g.dio Kind.value w).2.set_value_fd i (sys_open env g.dio Kind.value w).1)
  unfold open_dio
  simp only []
  split
  · exact h1
  · split
    · exact ⟨h2.1.trans h1.1, h2.2.trans h1.2⟩
    · exact ⟨h2.1.trans h1.1, h2.2.trans h1.2⟩

theorem same_input_for_dio (body : ℕ → World → Outcome Unit)
    (hb : ∀ (i : ℕ) (w : World), w.same_input (body i w).world) :
    ∀ (count i : ℕ) (w : World), w.same_input (for_dio body count i w).world := by
  intro count
  induction count with
  | zero => intro i w; exact ⟨rfl, rfl⟩
  | succ n ih =>
    intro i w
    rw [for_dio_succ]
    exact same_input_bind w _ _ (hb i w) (fun _ w' => ih (i + 1) w')

theorem same_input_setup_one (env : Env) (i : ℕ) (w : World) :
    w.same_input (setup_one env i w).world := by
  unfold setup_one
  refine same_input_bind w _ _ (same_input_open_dio env i _ w) (fun _ w' => ?_)
  refine same_input_bind w' _ _ (same_input_change_dir env _ _ w') (fun _ w'' => ?_)
  exact same_input_change_val env _ _ w''

theorem same_input_export (env : Env) (i : ℕ) (w : World) :
    w.same_input (Outcome.ok () (system_export env (w.g_dio_grp i).dio w)).world := by
  unfold system_export World.log
  split <;> exact ⟨rfl, rfl⟩

/-- The function `setup_dio` reads neither the receiver nor the clock. -/
theorem same_input_setup_dio (env : Env) (w : World) :
    w.same_input (setup_dio env w).world := by
  unfold setup_dio
  refine same_input_bind w _ _
    (same_input_for_dio _ (fun i w => same_input_export env i w) _ _ _) (fun _ w1 => ?_)
  refine same_input_bind w1 _ _
    (same_input_for_dio _ (fun i w => same_input_setup_one env i w) _ _ _) (fun _ w2 => ?_)
  refine same_input_bind w2 _ _ (same_input_change_dir env _ _ w2) (fun _ w3 => ?_)
  exact ⟨rfl, rfl⟩

theorem same_input_release_one (env : Env) (i : ℕ) (w : World) :
    w.same_input (release_one env i w).world := by
  unfold release_one
  refine same_input_bind w _ _ (same_input_change_dir env _ _ w) (fun _ w' => ?_)
  refine same_input_bind w' _ _ (same_input_change_val env _ _ w') (fun _ w'' => ?_)
  exact ⟨rfl, rfl⟩

/-- A successful `change_val_dio` touches neither the array, nor the
descriptor table, nor the input. -/
theorem change_val_dio_ok_frame (env : Env) (g : dio_grp) (val : String) (w : World) (pin : ℤ)
    (hfd : lookupFd w.fds g.value_fd = some (pin, Kind.value))
    (hw : env.write_fails pin Kind.value val = false) (hval : val = "0" ∨ val = "1") :
    ∃ w', change_val_dio env g val w = .ok () w' ∧ w'.g_dio_grp = w.g_dio_grp ∧
      w'.fds = w.fds ∧ w'.incoming = w.incoming ∧ w'.nclock = w.nclock := by
  rcases hval with rfl | rfl
  · exact ⟨_, change_val_dio_ok env g "0" w pin { w.pins pin with value := 0 } hfd hw
      (by simp [Pin.store]), rfl, rfl, rfl, rfl⟩
  · exact ⟨_, change_val_dio_ok env g "1" w pin { w.pins pin with value := 1 } hfd hw
      (by simp [Pin.store]), rfl, rfl, rfl, rfl⟩

/-- The whole of `do_latency_test`: when no call fails, the four lines are
different pins and the receiver shows reads that fit `loop_count` cycles, the
function returns, the statistics it reports are those of feeding the samples
`diff_ts(s_ts, e_ts)` of the cycles one by one from the initial values, and
all four lines are torn down. -/
theorem do_latency_test_run (env : Env) (udelay : ℕ) (alpha : ℚ) (cycles : List CycleReads)
    (w : World) (rest : List ReadResult)
    (hopen : ∀ p k, env.open_fails p k = false)
    (hwrite : ∀ p k d, env.write_fails p k d = false)
    (hd : w.distinct_pins) (hv : ∀ c ∈ cycles, c.fits)
    (hin : w.incoming = all_reads cycles ++ rest) :
    ∃ w', do_latency_test env cycles.length udelay alpha w
        = .ok (stats_run alpha (loop_samples env w.nclock cycles.length)) w' ∧
      (∀ i < NUM_DIO, w'.line_released i) ∧ w'.incoming = rest := by
  obtain ⟨w1, r1, ho1, hdio1, -⟩ := setup_dio_ok env w
    (fun j _ => ⟨hopen _ _, hopen _ _, hwrite _ _ _, hwrite _ _ _⟩) (hwrite _ _ _)
  have hs1 : w.same_input w1 := by
    have h := same_input_setup_dio env w
    rw [r1] at h; exact h
  obtain ⟨w2, r2, g2, f2, i2, n2⟩ := change_val_dio_ok_frame env (w1.g_dio_grp led) "1" w1 _
    (ho1 led (by decide)).1 (hwrite _ _ _) (Or.inr rfl)
  obtain ⟨w3, r3, g3, f3, i3, n3⟩ := change_val_dio_ok_frame env (w2.g_dio_grp pwr) "0" w2
    (w1.g_dio_grp pwr).dio (by rw [f2, g2]; exact (ho1 pwr (by decide)).1) (hwrite _ _ _)
    (Or.inl rfl)
  have hg3 : w3.g_dio_grp = w1.g_dio_grp := g3.trans g2
  have hf3 : w3.fds = w1.fds := f3.trans f2
  obtain ⟨w5, r5, g5, f5, i5, -, -⟩ := probe_loop_run env udelay alpha (w1.g_dio_grp emit).dio
    (hwrite _ _ _) (hwrite _ _ _) cycles Stats.init (w3.log (.sleep 1)) rest hv
    (by show w3.incoming = _; rw [i3, i2, hs1.1, hin])
    (by show (lookupFd w3.fds (w3.g_dio_grp recv).value_fd).isSome = true
        rw [hf3, hg3, (ho1 recv (by decide)).1]; rfl)
    (by show lookupFd w3.fds (w3.g_dio_grp emit).value_fd = _
        rw [hf3, hg3]; exact (ho1 emit (by decide)).1)
  have hg5 : w5.g_dio_grp = w1.g_dio_grp := g5.trans hg3
  have hf5 : w5.fds = w1.fds := f5.trans hf3
  obtain ⟨w6, r6, g6, f6, i6, -⟩ := change_val_dio_ok_frame env (w5.g_dio_grp led) "0" w5
    (w1.g_dio_grp led).dio (by rw [hf5, hg5]; exact (ho1 led (by decide)).1) (hwrite _ _ _)
    (Or.inl rfl)
  have hg6 : w6.g_dio_grp = w1.g_dio_grp := g6.trans hg5
  have hf6 : w6.fds = w1.fds := f6.trans hf5
  have hd6 : w6.distinct_pins := by
    intro a ha b hb hab
    rw [hg6, hdio1 a, hdio1 b]; exact hd a ha b hb hab
  have ho6 : ∀ j < NUM_DIO, w6.line_open j := by
    intro j hj
    have h := ho1 j hj
    unfold World.line_open at h ⊢
    rw [hf6, hg6]; exact h
  obtain ⟨w7, r7, -, rel7, -, -, -⟩ := for_dio_release env NUM_DIO 0 w6 (by simp) hd6
    (fun j _ hj => ⟨ho6 j (by omega), hwrite _ _ _, hwrite _ _ _⟩)
  refine ⟨w7, ?_, fun i hi => rel7 i (Nat.zero_le _) (by omega), ?_⟩
  · have hn : (w3.log (.sleep 1)).nclock = w.nclock := by
      show w3.nclock = _; rw [n3, n2, hs1.2]
    rw [hn] at r5
    rw [do_latency_test, r1, bind_ok, r2, bind_ok, r3, bind_ok, r5, bind_ok, r6, bind_ok,
      release_all_dio, r7, bind_ok]
    rfl
  · have h := same_input_for_dio _ (same_input_release_one env) NUM_DIO 0 w6
    rw [r7] at h
    have h1 : w7.incoming = w6.incoming := h.1
    rw [h1, i6, i5]

end GwLatencyTester
